import Mathlib

/-
Shallow embedding of the PPE compliance streaming pipeline:
  - src/backend/app/services/yolo_service.py
      (_calculate_iou, _track_workers, _parse_detections, _assign_ppe_to_workers,
       _evaluate_worker_compliance, _calculate_aggregate_statistics)
  - src/backend/app/api/websocket.py
      (cleanup_stale_workers, save_violation_with_snapshot, save_compliance_snapshot,
       process_camera_stream)

Datetimes are modelled as rational numbers of seconds (the source compares
`(a - b).total_seconds()` against integer thresholds).  Python dicts are
modelled as insertion-ordered association lists.
-/

namespace PPE

/-- Timestamps and durations, in seconds. -/
abbrev Time := ℚ

/-! ### Insertion-ordered dictionaries (Python `dict`) -/

/-- `d[k]` / `d.get(k)`: first binding of `k`, if any. -/
def dictGet [DecidableEq κ] (k : κ) : List (κ × α) → Option α
  | [] => none
  | (k', v) :: t => if k' = k then some v else dictGet k t

/-- `d[k] = v`: replace the binding in place, or append a fresh one at the end
(Python dicts preserve insertion order). -/
def dictSet [DecidableEq κ] (k : κ) (v : α) : List (κ × α) → List (κ × α)
  | [] => [(k, v)]
  | (k', v') :: t => if k' = k then (k, v) :: t else (k', v') :: dictSet k v t

/-- `del d[k]`: remove the binding(s) for `k`. -/
def dictDel [DecidableEq κ] (k : κ) : List (κ × α) → List (κ × α)
  | [] => []
  | (k', v') :: t => if k' = k then dictDel k t else (k', v') :: dictDel k t

/-! ### Geometry -/

/-- An axis-aligned bounding box `[x1, y1, x2, y2]` in pixel coordinates. -/
structure BBox where
  x1 : Int
  y1 : Int
  x2 : Int
  y2 : Int
deriving DecidableEq

/-- `YOLODetectionService._calculate_iou`. -/
def calculateIoU (b1 b2 : BBox) : ℚ :=
  let xLeft := max b1.x1 b2.x1
  let yTop := max b1.y1 b2.y1
  let xRight := min b1.x2 b2.x2
  let yBottom := min b1.y2 b2.y2
  if xRight < xLeft ∨ yBottom < yTop then 0
  else
    let interArea : ℚ := ((xRight - xLeft) * (yBottom - yTop) : ℤ)
    let area1 : ℚ := ((b1.x2 - b1.x1) * (b1.y2 - b1.y1) : ℤ)
    let area2 : ℚ := ((b2.x2 - b2.x1) * (b2.y2 - b2.y1) : ℤ)
    let unionArea := area1 + area2 - interArea
    if unionArea > 0 then interArea / unionArea else 0

/-- `area(intersection with person bbox) / area(PPE bbox)`, from
`_assign_ppe_to_workers`; `0` when the PPE box has non-positive area (the
source skips the comparison in that case, which is equivalent against the
strictly positive threshold). -/
def overlapRatio (item person : BBox) : ℚ :=
  let xOverlap := max 0 (min item.x2 person.x2 - max item.x1 person.x1)
  let yOverlap := max 0 (min item.y2 person.y2 - max item.y1 person.y1)
  let overlapArea : ℚ := (xOverlap * yOverlap : ℤ)
  let ppeArea : ℚ := ((item.x2 - item.x1) * (item.y2 - item.y1) : ℤ)
  if ppeArea > 0 then overlapArea / ppeArea else 0

/-! ### Tuneables (values hard-coded in the source) -/

def iou_matching_threshold : ℚ := 3 / 10
def ppe_overlap_threshold : ℚ := 1 / 2
def max_frames_missing : Nat := 30
def violation_persistence_seconds : ℚ := 5
def violation_cooldown_seconds : ℚ := 5
def compliance_snapshot_interval_seconds : ℚ := 10
def cleanup_stale_threshold : ℚ := 15

/-! ### Per-frame worker records -/

/-- One entry of the `workers` list produced by `_parse_detections` and
enriched by tracking, PPE assignment and compliance evaluation. -/
structure Person where
  bbox : BBox
  hardhat : Bool
  no_hardhat : Bool
  vest : Bool
  no_vest : Bool
  confidence : ℚ
  is_compliant : Option Bool
  status : String
  violation_type : Option String
  violation_count : Nat
  worker_id : Nat
deriving DecidableEq

/-- The fresh person dict built by `_parse_detections` (the `worker_id` key is
added later by tracking; `0` stands for the absent key). -/
def basePerson (b : BBox) (conf : ℚ) : Person :=
  { bbox := b
    hardhat := false
    no_hardhat := false
    vest := false
    no_vest := false
    confidence := conf
    is_compliant := none
    status := "Unknown"
    violation_type := none
    violation_count := 0
    worker_id := 0 }

/-- A person with given PPE flags and otherwise default fields. -/
def personOfFlags (h nh v nv : Bool) : Person :=
  { basePerson ⟨0, 0, 0, 0⟩ 0 with
      hardhat := h, no_hardhat := nh, vest := v, no_vest := nv }

/-! ### Compliance evaluation (`_evaluate_worker_compliance`) -/

/-- `_evaluate_worker_compliance`, for a single person. -/
def evaluateWorkerCompliance (p : Person) : Person :=
  let head_visible := p.hardhat || p.no_hardhat
  let body_visible := p.vest || p.no_vest
  let missing_items :=
    (if head_visible && p.no_hardhat then ["Hardhat"] else []) ++
      (if body_visible && p.no_vest then ["Safety Vest"] else [])
  let p := { p with violation_count := missing_items.length }
  if missing_items.length > 0 then
    { p with
        violation_type := some ("Missing " ++ String.intercalate " and " missing_items)
        is_compliant := some false
        status := "Not Safely Attired" }
  else if head_visible && body_visible then
    { p with
        is_compliant := some (p.hardhat && p.vest)
        status := if p.hardhat && p.vest then "Safely Attired" else "Not Safely Attired" }
  else if head_visible then
    { p with
        is_compliant := some p.hardhat
        status := if p.hardhat then "Safely Attired" else "Not Safely Attired" }
  else if body_visible then
    { p with
        is_compliant := some p.vest
        status := if p.vest then "Safely Attired" else "Not Safely Attired" }
  else
    { p with is_compliant := none, status := "Person Detected" }

/-! ### Aggregate statistics (`_calculate_aggregate_statistics`) -/

structure Aggregate where
  workers : List Person
  total_workers : Nat
  compliant_workers : Nat
  violation_workers : Nat
  unknown_workers : Nat
  total_violation_count : Nat
  person_detected : Bool
  hardhat_detected : Bool
  no_hardhat_detected : Bool
  safety_vest_detected : Bool
  no_safety_vest_detected : Bool
  is_compliant : Option Bool
  violation_type : Option String
  safety_status : String
deriving DecidableEq

/-- `_calculate_aggregate_statistics`.  The source joins the distinct
violation-type strings with a comma; the textual join is modelled per the
source on the list of present violation types. -/
def calculateAggregateStatistics (persons : List Person) : Aggregate :=
  let total_workers := persons.length
  let compliant_workers := (persons.filter (fun p => p.is_compliant = some true)).length
  let violation_workers := (persons.filter (fun p => p.is_compliant = some false)).length
  let unknown_workers := (persons.filter (fun p => p.is_compliant = none)).length
  let total_violation_count := (persons.map (fun p => p.violation_count)).sum
  let person_detected := total_workers > 0
  let is_compliant : Option Bool :=
    if violation_workers > 0 then some false
    else if unknown_workers = total_workers then none
    else some true
  let safety_status :=
    if ¬person_detected then "No Person Detected"
    else if total_violation_count > 0 then
      "Not Safely Attired (" ++ toString total_violation_count ++
        (if total_violation_count > 1 then " violations)" else " violation)")
    else if unknown_workers = total_workers then "Person Detected"
    else "Safely Attired"
  let violation_types := (persons.filterMap (fun p => p.violation_type))
  { workers := persons
    total_workers := total_workers
    compliant_workers := compliant_workers
    violation_workers := violation_workers
    unknown_workers := unknown_workers
    total_violation_count := total_violation_count
    person_detected := person_detected
    hardhat_detected := persons.any (fun p => p.hardhat)
    no_hardhat_detected := persons.any (fun p => p.no_hardhat)
    safety_vest_detected := persons.any (fun p => p.vest)
    no_safety_vest_detected := persons.any (fun p => p.no_vest)
    is_compliant := is_compliant
    violation_type :=
      if violation_workers > 0 ∧ violation_types ≠ [] then
        some (String.intercalate ", " violation_types)
      else none
    safety_status := safety_status }

/-! ### Worker tracking (`_track_workers`) -/

/-- One value of the `tracked_workers` dict. -/
structure TrackedWorker where
  bbox : BBox
  last_seen_frame : Nat
deriving DecidableEq

/-- One camera's entry of `camera_trackers`. -/
structure CameraTracker where
  tracked_workers : List (Nat × TrackedWorker)
  next_worker_id : Nat
  frame_count : Nat
deriving DecidableEq

/-- `_get_camera_tracker`'s fresh tracker. -/
def freshTracker : CameraTracker :=
  { tracked_workers := [], next_worker_id := 1, frame_count := 0 }

/-- The inner matching loop of `_track_workers`: scan the tracked workers in
dict order, keeping the first id whose IoU strictly exceeds the current best
(initially the matching threshold). -/
def bestTrackMatch (b : BBox) (tracked : List (Nat × TrackedWorker)) : Option Nat × ℚ :=
  tracked.foldl
    (fun acc q =>
      let iou := calculateIoU b q.2.bbox
      if iou > acc.2 then (some q.1, iou) else acc)
    (none, iou_matching_threshold)

/-- One iteration of the person loop in `_track_workers`: match or allocate,
then update the tracked entry in place. -/
def trackOnePerson (fc : Nat) (acc : CameraTracker × List Person) (p : Person) :
    CameraTracker × List Person :=
  let (tr, out) := acc
  match (bestTrackMatch p.bbox tr.tracked_workers).1 with
  | some wid =>
      ({ tr with tracked_workers := dictSet wid ⟨p.bbox, fc⟩ tr.tracked_workers },
        out ++ [{ p with worker_id := wid }])
  | none =>
      let wid := tr.next_worker_id
      ({ tr with
          tracked_workers := dictSet wid ⟨p.bbox, fc⟩ tr.tracked_workers
          next_worker_id := wid + 1 },
        out ++ [{ p with worker_id := wid }])

/-- `_track_workers`: increment the frame counter, greedily assign ids, then
evict entries not seen for more than `max_frames_missing` frames. -/
def trackWorkers (tr : CameraTracker) (persons : List Person) :
    CameraTracker × List Person :=
  let tr := { tr with frame_count := tr.frame_count + 1 }
  let fc := tr.frame_count
  let (tr, out) := persons.foldl (trackOnePerson fc) (tr, [])
  ({ tr with
      tracked_workers :=
        tr.tracked_workers.filter
          (fun q => decide (fc - q.2.last_seen_frame ≤ max_frames_missing)) },
    out)

/-! ### Detection parsing and PPE assignment -/

/-- One labelled box returned by the detector (`class`, `confidence`, `bbox`).
`class` is a Lean keyword, hence the field name `cls`. -/
structure Detection where
  cls : String
  confidence : ℚ
  bbox : BBox
deriving DecidableEq

/-- `_parse_detections`: split detections into person dicts and PPE items. -/
def parseDetections (detections : List Detection) : List Person × List Detection :=
  detections.foldl
    (fun (acc : List Person × List Detection) d =>
      if d.cls = "Person" then (acc.1 ++ [basePerson d.bbox d.confidence], acc.2)
      else (acc.1, acc.2 ++ [d]))
    ([], [])

/-- Replace the element at index `i` (identity when out of range). -/
def updateAt (i : Nat) (f : α → α) : List α → List α
  | [] => []
  | a :: t =>
    match i with
    | 0 => f a :: t
    | n + 1 => a :: updateAt n f t

/-- The inner person scan of `_assign_ppe_to_workers`: index of the person
with the largest overlap ratio strictly above the threshold, first-best wins
ties. -/
def bestPersonIdx (item : BBox) (persons : List Person) : Option Nat :=
  (persons.foldl
      (fun (acc : Option Nat × ℚ × Nat) p =>
        let r := overlapRatio item p.bbox
        if r > ppe_overlap_threshold ∧ r > acc.2.1 then (some acc.2.2, r, acc.2.2 + 1)
        else (acc.1, acc.2.1, acc.2.2 + 1))
      (none, 0, 0)).1

/-- Set the PPE flag corresponding to a (normalised) class name. -/
def applyPPEFlag (cls : String) (p : Person) : Person :=
  if cls = "Hardhat" then { p with hardhat := true }
  else if cls = "No-Hardhat" then { p with no_hardhat := true }
  else if cls = "Safety-Vest" then { p with vest := true }
  else if cls = "No-Safety-Vest" then { p with no_vest := true }
  else p

/-- `_assign_ppe_to_workers`. -/
def assignPPEToWorkers (persons : List Person) (ppe_items : List Detection) :
    List Person :=
  ppe_items.foldl
    (fun ps item =>
      match bestPersonIdx item.bbox ps with
      | some i => updateAt i (applyPPEFlag item.cls) ps
      | none => ps)
    persons

/-- `_analyze_detections_per_worker` on the tracking path (the websocket
pipeline always passes a camera id). -/
def analyzeDetectionsPerWorker (tr : CameraTracker) (detections : List Detection) :
    CameraTracker × Aggregate :=
  let (persons, ppe_items) := parseDetections detections
  let (tr, persons) := trackWorkers tr persons
  let persons := assignPPEToWorkers persons ppe_items
  let persons := persons.map evaluateWorkerCompliance
  (tr, calculateAggregateStatistics persons)

/-! ### Persisted records (models/detection.py, models/alert.py) -/

inductive AlertSeverity
  | high
  | medium
  | low
deriving DecidableEq

/-- A `DetectionEvent` row, restricted to the fields the pipeline writes.
`violation_duration` mirrors the `violation_duration` argument the source
passes to `save_violation_with_snapshot` (it is logged, not stored); the model
keeps it on the record so that theorems can speak about the duration observed
at save time.  `timestamp` is the `current_time` of the saving frame. -/
structure DetectionRecord where
  camera_id : String
  worker_id : Nat
  person_detected : Bool
  hardhat_detected : Bool
  no_hardhat_detected : Bool
  safety_vest_detected : Bool
  no_safety_vest_detected : Bool
  is_compliant : Bool
  violation_type : Option String
  snapshot_url : Option String
  timestamp : Time
  violation_duration : Option ℚ
deriving DecidableEq

/-- An `Alert` row; `detection_event_id` is the index of the referenced
detection row in the detections table. -/
structure AlertRecord where
  detection_event_id : Nat
  worker_id : Nat
  severity : AlertSeverity
  message : String
  created_at : Time
deriving DecidableEq

/-- The two tables the pipeline writes; rows persisted by this run only. -/
structure DB where
  detections : List DetectionRecord
  alerts : List AlertRecord
deriving DecidableEq

/-! ### Alert severity (`save_violation_with_snapshot`) -/

/-- Whether `needle` matches `hay` at its head. -/
def charsMatchAt : List Char → List Char → Bool
  | [], _ => true
  | _ :: _, [] => false
  | a :: as, b :: bs => a == b && charsMatchAt as bs

/-- Python's `needle in hay` on strings (contiguous substring). -/
def strContains (hay needle : String) : Bool :=
  let rec go : List Char → Bool
    | [] => needle.toList.isEmpty
    | c :: t => charsMatchAt needle.toList (c :: t) || go t
  go hay.toList

/-- Python's `str.lower()`, character by character (the violation-type strings
are plain ASCII). -/
def lowerString (s : String) : String :=
  String.mk (s.data.map Char.toLower)

/-- The severity computation of `save_violation_with_snapshot`: defaults to
HIGH; a falsy (None or empty) violation type keeps the default. -/
def severityForViolation (violation_type : Option String) : AlertSeverity :=
  match violation_type with
  | none => AlertSeverity.high
  | some s =>
    if s = "" then AlertSeverity.high
    else
      let vl := lowerString s
      if strContains vl "hardhat" && strContains vl "safety vest" then AlertSeverity.high
      else if strContains vl "hardhat" then AlertSeverity.high
      else if strContains vl "safety vest" then AlertSeverity.medium
      else AlertSeverity.high

/-! ### Violation and compliance persistence -/

/-- The possible outcomes of one `save_violation_with_snapshot` call, chosen
by the environment (database errors are raised by the commits):
`ok` — both commits succeed; `failBetween` — the detection commit succeeds and
an error is raised before the alert commit completes; `failEarly` — an error
is raised before the detection commit completes.  The snapshot write and the
final broadcast are not modelled (a snapshot failure only nulls the URL). -/
inductive SaveResult
  | ok
  | failBetween
  | failEarly
deriving DecidableEq

/-- The `DetectionEvent` constructed by `save_violation_with_snapshot`. -/
def violationDetectionRecord (cam : String) (w : Person) (snap : Option String)
    (t : Time) (dur : ℚ) : DetectionRecord :=
  { camera_id := cam
    worker_id := w.worker_id
    person_detected := true
    hardhat_detected := w.hardhat
    no_hardhat_detected := w.no_hardhat
    safety_vest_detected := w.vest
    no_safety_vest_detected := w.no_vest
    is_compliant := false
    violation_type := w.violation_type
    snapshot_url := snap
    timestamp := t
    violation_duration := some dur }

/-- The `Alert` constructed by `save_violation_with_snapshot` for the
detection row at index `did` (Python renders a missing violation type as the
string form of None). -/
def violationAlertRecord (did : Nat) (w : Person) (loc : String) (t : Time) :
    AlertRecord :=
  { detection_event_id := did
    worker_id := w.worker_id
    severity := severityForViolation w.violation_type
    message := "Worker #" ++ toString w.worker_id ++ ": " ++
      w.violation_type.getD "None" ++ " at " ++ loc
    created_at := t }

/-- `save_violation_with_snapshot`: insert the detection and commit, then
insert the alert and commit — two transactions.  Returns the database and
whether the call returned without raising. -/
def saveViolationWithSnapshot (cam loc : String) (w : Person) (snap : Option String)
    (t : Time) (dur : ℚ) (outcome : SaveResult) (db : DB) : DB × Bool :=
  match outcome with
  | SaveResult.failEarly => (db, false)
  | SaveResult.failBetween =>
      ({ db with detections := db.detections ++ [violationDetectionRecord cam w snap t dur] },
        false)
  | SaveResult.ok =>
      let detections := db.detections ++ [violationDetectionRecord cam w snap t dur]
      ({ detections := detections
         alerts := db.alerts ++ [violationAlertRecord (detections.length - 1) w loc t] },
        true)

/-- The `DetectionEvent` constructed by `save_compliance_snapshot`. -/
def complianceDetectionRecord (cam : String) (w : Person) (t : Time) :
    DetectionRecord :=
  { camera_id := cam
    worker_id := w.worker_id
    person_detected := true
    hardhat_detected := w.hardhat
    no_hardhat_detected := w.no_hardhat
    safety_vest_detected := w.vest
    no_safety_vest_detected := w.no_vest
    is_compliant := true
    violation_type := none
    snapshot_url := none
    timestamp := t
    violation_duration := none }

/-- The snapshot URL written by `save_violation_with_snapshot` (timestamp and
random filename suffix elided). -/
def snapshotURL (cam : String) (wid : Nat) : Option String :=
  some ("/uploads/violations/" ++ cam ++ "/violation_worker" ++ toString wid ++ ".jpg")

/-! ### Global violation tracking (`ConnectionManager`) -/

/-- The composite key `f"{camera_id}_{worker_id}"`, kept structured. -/
structure TrackKey where
  camera : String
  worker : Nat
deriving DecidableEq

/-- The three global per-worker dicts of `ConnectionManager`. -/
structure ManagerTracking where
  worker_violation_start_time : List (TrackKey × Time)
  last_worker_violation_save_time : List (TrackKey × Time)
  last_worker_screenshot_time : List (TrackKey × Time)
deriving DecidableEq

/-- Delete one composite key from all three global dicts. -/
def removeTrackKey (k : TrackKey) (mgr : ManagerTracking) : ManagerTracking :=
  { worker_violation_start_time := dictDel k mgr.worker_violation_start_time
    last_worker_violation_save_time := dictDel k mgr.last_worker_violation_save_time
    last_worker_screenshot_time := dictDel k mgr.last_worker_screenshot_time }

/-- `cleanup_stale_workers`: drop, for every locally tracked worker that is
not in the current frame and was last seen more than `threshold` seconds ago,
its key from the three global dicts and from the local last-seen dict. -/
def cleanupStaleWorkers (cam : String) (mgr : ManagerTracking)
    (seen : List (Nat × Time)) (currentIds : List Nat) (t : Time) (threshold : ℚ) :
    ManagerTracking × List (Nat × Time) :=
  let staleIds :=
    (seen.filter (fun q => decide (¬ q.1 ∈ currentIds) && decide (t - q.2 > threshold))).map
      Prod.fst
  (staleIds.foldl (fun m wid => removeTrackKey ⟨cam, wid⟩ m) mgr,
    staleIds.foldl (fun s wid => dictDel wid s) seen)

/-! ### The per-camera stream loop (`process_camera_stream`) -/

/-- The mutable state a stream iteration reads and writes: the global
`ConnectionManager` dicts, the rows persisted so far by this task, the local
`last_worker_seen_time` dict, the loop's `frame_count`, and the global
compliance-snapshot timer. -/
structure StreamState where
  mgr : ManagerTracking
  db : DB
  last_worker_seen_time : List (Nat × Time)
  frame_count : Nat
  last_global_compliance_snapshot_time : Time
deriving DecidableEq

/-- One frame as seen after detection: the wall-clock `current_time` of the
iteration and the evaluated `workers` list, each worker paired with the
environment-chosen outcome of a database save attempted for it. -/
structure Frame where
  time : Time
  workers : List (Person × SaveResult)
deriving DecidableEq

/-- The violation / compliance branch of the detection-saving loop for one
worker: skip Unknown, run the persistence window and cooldown checks for
violations (updating the save timer only when the save call returns), and
clear the violation start on compliance. -/
def processWorkerDetection (cam loc : String) (t : Time)
    (st : ManagerTracking × DB) (wo : Person × SaveResult) : ManagerTracking × DB :=
  let (mgr, db) := st
  let (w, outcome) := wo
  match w.is_compliant with
  | none => (mgr, db)
  | some true =>
      let key : TrackKey := ⟨cam, w.worker_id⟩
      ({ mgr with
          worker_violation_start_time := dictDel key mgr.worker_violation_start_time },
        db)
  | some false =>
      let key : TrackKey := ⟨cam, w.worker_id⟩
      match dictGet key mgr.worker_violation_start_time with
      | none =>
          ({ mgr with
              worker_violation_start_time :=
                dictSet key t mgr.worker_violation_start_time },
            db)
      | some t0 =>
          let violation_duration := t - t0
          if violation_duration < violation_persistence_seconds then (mgr, db)
          else
            let attemptSave : ManagerTracking × DB :=
              let (db, saved) :=
                saveViolationWithSnapshot cam loc w (snapshotURL cam w.worker_id) t
                  violation_duration outcome db
              if saved then
                ({ mgr with
                    last_worker_violation_save_time :=
                      dictSet key t mgr.last_worker_violation_save_time },
                  db)
              else (mgr, db)
            match dictGet key mgr.last_worker_violation_save_time with
            | some ts =>
                if t - ts < violation_cooldown_seconds then (mgr, db)
                else attemptSave
            | none => attemptSave

/-- `save_compliance_snapshot` succeeds exactly when no database error is
raised for this worker (the call has a single commit). -/
def complianceSaveStep (cam : String) (t : Time) (db : DB) (wo : Person × SaveResult) :
    DB :=
  if wo.1.is_compliant = some true ∧ wo.2 = SaveResult.ok then
    { db with detections := db.detections ++ [complianceDetectionRecord cam wo.1 t] }
  else db

/-- One iteration of the `while` loop of `process_camera_stream` after a
successful detection: update the last-seen dict, run the periodic stale-worker
sweep, run the per-worker violation state machine, then the global compliance
snapshot tick. -/
def processFrame (cam loc : String) (save_detections : Bool) (st : StreamState)
    (f : Frame) : StreamState :=
  let t := f.time
  let currentIds := f.workers.map (fun wo => wo.1.worker_id)
  let seen := f.workers.foldl (fun s wo => dictSet wo.1.worker_id t s)
    st.last_worker_seen_time
  let (mgr, seen) :=
    if st.frame_count % 150 = 0 then
      cleanupStaleWorkers cam st.mgr seen currentIds t cleanup_stale_threshold
    else (st.mgr, seen)
  let (mgr, db) :=
    if save_detections then
      f.workers.foldl (processWorkerDetection cam loc t) (mgr, st.db)
    else (mgr, st.db)
  let shouldSnap :=
    t - st.last_global_compliance_snapshot_time ≥ compliance_snapshot_interval_seconds
  let (db, lastSnap) :=
    if shouldSnap ∧ save_detections then
      (f.workers.foldl (complianceSaveStep cam t) db, t)
    else (db, st.last_global_compliance_snapshot_time)
  { mgr := mgr
    db := db
    last_worker_seen_time := seen
    frame_count := st.frame_count + 1
    last_global_compliance_snapshot_time := lastSnap }

/-- A stream-loop input: either a frame whose detector call succeeded, or a
frame on which the detector raised (there is no per-frame handler around
`yolo_service.detect_with_tracking`). -/
inductive FrameIn
  | nextFrame (f : Frame)
  | detectRaise
deriving DecidableEq

/-- How the loop ended. -/
inductive StreamExit
  | streamEnded
  | detectorException
deriving DecidableEq

/-- The `while` loop: a detector exception propagates to the stream-level
`except` handler, which logs it, broadcasts an error and falls through to the
`finally` block — the remaining frames are never processed. -/
def runFrames (cam loc : String) (save_detections : Bool) (st : StreamState) :
    List FrameIn → StreamState × StreamExit
  | [] => (st, StreamExit.streamEnded)
  | FrameIn.nextFrame f :: rest =>
      runFrames cam loc save_detections (processFrame cam loc save_detections st f) rest
  | FrameIn.detectRaise :: _ => (st, StreamExit.detectorException)

/-- The `finally`-block cleanup of the global violation tracking: the keys to
remove are collected from `worker_violation_start_time` only, and each is then
deleted from all three dicts. -/
def teardownCleanup (cam : String) (mgr : ManagerTracking) : ManagerTracking :=
  let keys_to_remove :=
    (mgr.worker_violation_start_time.map Prod.fst).filter
      (fun k => decide (k.camera = cam))
  keys_to_remove.foldl (fun m k => removeTrackKey k m) mgr

/-- `process_camera_stream`: run the loop over the given inputs, then run the
always-executed teardown. -/
def processCameraStream (cam loc : String) (save_detections : Bool)
    (st : StreamState) (ins : List FrameIn) : StreamState × StreamExit :=
  let (st, ex) := runFrames cam loc save_detections st ins
  ({ st with mgr := teardownCleanup cam st.mgr }, ex)

/-- The last-seen dict after recording all of a frame's workers at its time
(the first stage of a loop iteration). -/
def frameSeen (st : StreamState) (f : Frame) : List (Nat × Time) :=
  f.workers.foldl (fun s wo => dictSet wo.1.worker_id f.time s) st.last_worker_seen_time

/-- The manager and local seen dict after the periodic stale sweep of one
frame (run on every 150th frame). -/
def frameCleanup (cam : String) (st : StreamState) (f : Frame) :
    ManagerTracking × List (Nat × Time) :=
  if st.frame_count % 150 = 0 then
    cleanupStaleWorkers cam st.mgr (frameSeen st f)
      (f.workers.map (fun wo => wo.1.worker_id)) f.time cleanup_stale_threshold
  else (st.mgr, frameSeen st f)

/-! ### Specification-side reference definitions (for refinement claims) -/

/-- The violation kinds named by the specification. -/
inductive ViolationKind
  | missingHardhat
  | missingVest
  | missingBoth
deriving DecidableEq

/-- Modelled from the spec (§4.4 classification rules): the classification
column of the decision table, as worded in the claim. -/
def specClassification (h nh v nv : Bool) : Option Bool :=
  if nh && nv then some false
  else if nh then some false
  else if nv then some false
  else if (h || nh) && (v || nv) then some (h && v)
  else if h || nh then some h
  else if v || nv then some v
  else none

/-- The worker-id sequence assigned to one frame of persons. -/
def assignedIds (tr : CameraTracker) (persons : List Person) : List Nat :=
  (trackWorkers tr persons).2.map (fun p => p.worker_id)

/-- Modelled from the spec (§4.4): the violation kind of the decision table. -/
def specViolationKind (h nh v nv : Bool) : Option ViolationKind :=
  if nh && nv then some ViolationKind.missingBoth
  else if nh then some ViolationKind.missingHardhat
  else if nv then some ViolationKind.missingVest
  else none

/-- The violation-type string the code produces for each spec-level kind. -/
def violationKindMessage : ViolationKind → String
  | ViolationKind.missingHardhat => "Missing Hardhat"
  | ViolationKind.missingVest => "Missing Safety Vest"
  | ViolationKind.missingBoth => "Missing Hardhat and Safety Vest"

/-! ### Trace predicates -/

/-- The violation rows for one `(camera, worker)` pair, in insertion order. -/
def violationRowsFor (key : TrackKey) (l : List DetectionRecord) : List DetectionRecord :=
  l.filter (fun r =>
    decide (r.camera_id = key.camera ∧ r.worker_id = key.worker ∧ r.is_compliant = false))

/-- The `current_time` values of the successfully detected frames, in order. -/
def frameTimes (ins : List FrameIn) : List Time :=
  ins.filterMap (fun i =>
    match i with
    | FrameIn.nextFrame f => some f.time
    | FrameIn.detectRaise => none)

/-- The frames of a stream input list. -/
def framesOf (ins : List FrameIn) : List Frame :=
  ins.filterMap (fun i =>
    match i with
    | FrameIn.nextFrame f => some f
    | FrameIn.detectRaise => none)

/-- No save attempt in the history fails between the detection commit and the
alert commit. -/
def NoMidSaveFailure (ins : List FrameIn) : Prop :=
  ∀ f ∈ framesOf ins, ∀ wo ∈ f.workers, wo.2 ≠ SaveResult.failBetween

/-- The cooldown bookkeeping invariant tying the global save-time dict to the
violation rows already persisted for each key. -/
def CooldownInv (cam : String) (mgr : ManagerTracking) (recs : List DetectionRecord)
    (tNow : Time) : Prop :=
  ∀ key : TrackKey,
    List.Chain' (fun r s => r.timestamp + violation_cooldown_seconds ≤ s.timestamp)
        (violationRowsFor key recs) ∧
      ∀ r, (violationRowsFor key recs).getLast? = some r →
        r.timestamp ≤ tNow ∧
          (dictGet key mgr.last_worker_violation_save_time = some r.timestamp ∨
            (dictGet key mgr.last_worker_violation_save_time = none ∧
              ∀ t0, dictGet key mgr.worker_violation_start_time = some t0 →
                r.timestamp ≤ t0))

/-! ### Concrete scenario inputs used by counterexamples and witnesses -/

/-- A worker evaluated as `Violation(MissingHardhat)` with worker id 1. -/
def violatingWorker : Person :=
  { personOfFlags false true false false with
      worker_id := 1
      is_compliant := some false
      violation_type := some "Missing Hardhat" }

/-- A worker evaluated as Compliant with worker id 1. -/
def compliantWorker : Person :=
  { personOfFlags true false true false with
      worker_id := 1
      is_compliant := some true }

/-- A worker with no PPE evidence at all (Unknown), worker id 1. -/
def unknownWorker : Person :=
  { personOfFlags false false false false with worker_id := 1 }

/-- A fresh stream state: empty global dicts, no rows persisted yet. -/
def initialStreamState : StreamState :=
  { mgr := ⟨[], [], []⟩
    db := ⟨[], []⟩
    last_worker_seen_time := []
    frame_count := 0
    last_global_compliance_snapshot_time := 0 }

/-- A detected person at `(0,0)-(10,10)`. -/
def personA : Person := basePerson ⟨0, 0, 10, 10⟩ 1

/-- A detected person at `(0,0)-(10,9)`, overlapping `personA` with IoU 0.9. -/
def personB : Person := basePerson ⟨0, 0, 10, 9⟩ 1

/-- The tracker after one frame containing only `personA` (it then tracks
worker 1 at `personA`'s box, and `next_worker_id = 2`). -/
def trackerAfterFirstFrame : CameraTracker := (trackWorkers freshTracker [personA]).1

/-- A stream history: a violation starts at `t = 0`; at `t = 5` the save
attempt fails between its two commits; at `t = 6` the next save succeeds. -/
def cooldownCexInput : List FrameIn :=
  [FrameIn.nextFrame ⟨0, [(violatingWorker, SaveResult.ok)]⟩,
   FrameIn.nextFrame ⟨5, [(violatingWorker, SaveResult.failBetween)]⟩,
   FrameIn.nextFrame ⟨6, [(violatingWorker, SaveResult.ok)]⟩]

/-- A stream history: a violation starts at `t = 0`, is saved at `t = 6`, and
the worker turns compliant at `t = 7` (clearing the violation start). -/
def teardownBugInput : List FrameIn :=
  [FrameIn.nextFrame ⟨0, [(violatingWorker, SaveResult.ok)]⟩,
   FrameIn.nextFrame ⟨6, [(violatingWorker, SaveResult.ok)]⟩,
   FrameIn.nextFrame ⟨7, [(compliantWorker, SaveResult.ok)]⟩]

/-- A stream state with a pending violation start for `("cam1", 1)`. -/
def pendingStartState : StreamState :=
  { initialStreamState with mgr := ⟨[(⟨"cam1", 1⟩, 0)], [], []⟩ }

/-- A stream state with both a pending violation start and a recorded last
save for `("cam1", 1)`. -/
def startAndSaveState : StreamState :=
  { initialStreamState with mgr := ⟨[(⟨"cam1", 1⟩, 0)], [(⟨"cam1", 1⟩, 0)], []⟩ }

/-- A history whose first frame raises in the detector; the second frame
would have started a violation had it been processed. -/
def detectorCrashInput : List FrameIn :=
  [FrameIn.detectRaise, FrameIn.nextFrame ⟨0, [(violatingWorker, SaveResult.ok)]⟩]

/-- A violation history whose saves all succeed: the violation starts at
`t = 0` and saves happen at `t = 5` and `t = 10`. -/
def cooldownWitnessInput : List FrameIn :=
  [FrameIn.nextFrame ⟨0, [(violatingWorker, SaveResult.ok)]⟩,
   FrameIn.nextFrame ⟨5, [(violatingWorker, SaveResult.ok)]⟩,
   FrameIn.nextFrame ⟨10, [(violatingWorker, SaveResult.ok)]⟩]

/-! ## Lemmas -/

theorem dictGet_dictSet_self [DecidableEq κ] (k : κ) (v : α) (l : List (κ × α)) :
    dictGet k (dictSet k v l) = some v := by
  induction l with
  | nil => simp [dictSet, dictGet]
  | cons p t ih =>
    by_cases h : p.1 = k <;> simp [dictSet, dictGet, h, ih]

theorem dictGet_dictSet_other [DecidableEq κ] {k k' : κ} (hne : k' ≠ k) (v : α)
    (l : List (κ × α)) : dictGet k (dictSet k' v l) = dictGet k l := by
  induction l with
  | nil => simp [dictSet, dictGet, hne]
  | cons p t ih =>
    by_cases h : p.1 = k' <;> simp [dictSet, dictGet, h, hne, ih]

theorem dictGet_dictDel_self [DecidableEq κ] (k : κ) (l : List (κ × α)) :
    dictGet k (dictDel k l) = none := by
  induction l with
  | nil => simp [dictDel, dictGet]
  | cons p t ih =>
    by_cases h : p.1 = k <;> simp [dictDel, dictGet, h, ih]

theorem dictGet_dictDel_other [DecidableEq κ] {k k' : κ} (hne : k' ≠ k)
    (l : List (κ × α)) : dictGet k (dictDel k' l) = dictGet k l := by
  induction l with
  | nil => simp [dictDel, dictGet]
  | cons p t ih =>
    by_cases h : p.1 = k' <;> simp [dictDel, dictGet, h, hne, ih]

/-! ## C6 — compliance decision table -/

/-- C6: for every combination of the four PPE flags,
`_evaluate_worker_compliance` classifies exactly per the spec's decision
table — `no_hardhat ∧ no_vest` gives Violation(MissingBoth), else `no_hardhat`
gives Violation(MissingHardhat), else `no_vest` gives Violation(MissingVest),
else with both regions observed Compliant iff `hardhat ∧ vest`, else with one
region observed Compliant iff that region's positive flag — where the
violation kind is read off the produced violation-type string. -/
theorem evaluateWorkerCompliance_matches_spec_table :
    ∀ h nh v nv : Bool,
      (evaluateWorkerCompliance (personOfFlags h nh v nv)).is_compliant =
          specClassification h nh v nv ∧
        (evaluateWorkerCompliance (personOfFlags h nh v nv)).violation_type =
          Option.map violationKindMessage (specViolationKind h nh v nv) := by
  decide

/-! ## C4 — the violation save is two transactions, not one -/

/-- C4 counterexample: when an error occurs between the two commits of
`save_violation_with_snapshot` (the call reports failure), the detection row
is nevertheless committed — contradicting "if any error occurs during the
operation, neither the detection record nor the alert is committed". -/
theorem saveViolation_not_atomic_cex :
    (saveViolationWithSnapshot "cam1" "Site A" violatingWorker none 0 5
          SaveResult.failBetween ⟨[], []⟩).2 = false ∧
      (saveViolationWithSnapshot "cam1" "Site A" violatingWorker none 0 5
            SaveResult.failBetween ⟨[], []⟩).1.detections.length = 1 ∧
      (saveViolationWithSnapshot "cam1" "Site A" violatingWorker none 0 5
            SaveResult.failBetween ⟨[], []⟩).1.alerts = [] := by
  decide

/-- C4 amended: `save_violation_with_snapshot` inserts the detection and the
alert in two separate transactions (`db.commit()` is called twice).  On
success both rows are appended and the alert references the detection row; an
error before the detection commit leaves the database unchanged; an error
after the detection commit but before the alert commit leaves the detection
row committed with no alert. -/
theorem saveViolation_two_transactions :
    ∀ (cam loc : String) (w : Person) (snap : Option String) (t : Time) (dur : ℚ)
      (db : DB),
      saveViolationWithSnapshot cam loc w snap t dur SaveResult.ok db =
          ({ detections := db.detections ++ [violationDetectionRecord cam w snap t dur]
             alerts := db.alerts ++ [violationAlertRecord db.detections.length w loc t] },
            true) ∧
        saveViolationWithSnapshot cam loc w snap t dur SaveResult.failBetween db =
          ({ db with
              detections := db.detections ++ [violationDetectionRecord cam w snap t dur] },
            false) ∧
        saveViolationWithSnapshot cam loc w snap t dur SaveResult.failEarly db =
          (db, false) := by
  intro cam loc w snap t dur db
  refine ⟨?_, rfl, rfl⟩
  simp [saveViolationWithSnapshot]

/-! ## C5 — two persons can be assigned the same tracked ID -/

/-- C5 counterexample: starting from a fresh tracker, one frame with `personA`
tracks it as worker 1; on the next frame `personA` and `personB` both
best-match tracked worker 1 (IoU 1 and 0.9, both above the 0.3 threshold), and
the code assigns worker id 1 to both — the second person is not given a fresh
id (`next_worker_id` stays 2), and the frame's ids are not pairwise
distinct. -/
theorem tracker_shared_id_cex :
    assignedIds trackerAfterFirstFrame [personA, personB] = [1, 1] ∧
      (trackWorkers trackerAfterFirstFrame [personA, personB]).1.next_worker_id = 2 := by
  with_unfolding_all decide

/-- C5 amended: when two persons of one frame sequentially best-match the same
tracked worker id (the second match is computed against the tracker already
updated by the first person), both persons are assigned that same id and no
fresh id is allocated; worker ids within a frame are therefore not necessarily
pairwise distinct.  (`matched_worker_ids` is collected by the source but never
consulted.) -/
theorem tracker_shared_id_both_assigned :
    ∀ (tr : CameraTracker) (p1 p2 : Person) (i : Nat),
      (bestTrackMatch p1.bbox tr.tracked_workers).1 = some i →
      (bestTrackMatch p2.bbox
          (dictSet i ⟨p1.bbox, tr.frame_count + 1⟩ tr.tracked_workers)).1 = some i →
      assignedIds tr [p1, p2] = [i, i] ∧
        (trackWorkers tr [p1, p2]).1.next_worker_id = tr.next_worker_id := by
  intro tr p1 p2 i h1 h2
  constructor
  · simp [assignedIds, trackWorkers, trackOnePerson, h1, h2]
  · simp [trackWorkers, trackOnePerson, h1, h2]

/-- C5 witness: the amended statement applied to the concrete overlapping
frame of the counterexample scenario. -/
theorem tracker_shared_id_both_assigned_witness :
    assignedIds trackerAfterFirstFrame [personA, personB] = [1, 1] ∧
      (trackWorkers trackerAfterFirstFrame [personA, personB]).1.next_worker_id =
        trackerAfterFirstFrame.next_worker_id :=
  tracker_shared_id_both_assigned trackerAfterFirstFrame personA personB 1
    (by with_unfolding_all decide) (by with_unfolding_all decide)

/-! ## C10 — frames with no Person detections -/

theorem parse_foldl_no_person (dets : List Detection) :
    ∀ acc : List Person × List Detection, acc.1 = [] →
      (∀ d ∈ dets, d.cls ≠ "Person") →
      (dets.foldl
          (fun (acc : List Person × List Detection) d =>
            if d.cls = "Person" then (acc.1 ++ [basePerson d.bbox d.confidence], acc.2)
            else (acc.1, acc.2 ++ [d]))
          acc).1 = [] := by
  induction dets with
  | nil => intro acc h _; simpa using h
  | cons d t ih =>
    intro acc h hall
    have hd : d.cls ≠ "Person" := hall d (by simp)
    simp only [List.foldl_cons]
    exact ih _ (by simp [hd, h]) (fun x hx => hall x (by simp [hx]))

theorem parseDetections_no_person (dets : List Detection)
    (h : ∀ d ∈ dets, d.cls ≠ "Person") : (parseDetections dets).1 = [] :=
  parse_foldl_no_person dets ([], []) rfl h

theorem trackWorkers_nil_out (tr : CameraTracker) : (trackWorkers tr []).2 = [] := rfl

theorem assignPPE_nil (items : List Detection) : assignPPEToWorkers [] items = [] := by
  induction items with
  | nil => rfl
  | cons it t ih =>
    simpa [assignPPEToWorkers, bestPersonIdx, List.foldl_cons] using ih

theorem processFrame_no_workers_db (cam loc : String) (sd : Bool) (st : StreamState)
    (t : Time) : (processFrame cam loc sd st ⟨t, []⟩).db = st.db := by
  simp only [processFrame, List.map_nil, List.foldl_nil]
  split <;> split <;> rfl

/-- C10: a frame in which the detector returns no Person detections yields an
aggregate with `person_detected = false`, `is_compliant = None`,
`safety_status = "No Person Detected"` and an empty workers list; and a stream
iteration over that (empty) workers list persists no record. -/
theorem no_person_frame_aggregate :
    ∀ (tr : CameraTracker) (dets : List Detection),
      (∀ d ∈ dets, d.cls ≠ "Person") →
      ((analyzeDetectionsPerWorker tr dets).2.person_detected = false ∧
          (analyzeDetectionsPerWorker tr dets).2.is_compliant = none ∧
          (analyzeDetectionsPerWorker tr dets).2.safety_status = "No Person Detected" ∧
          (analyzeDetectionsPerWorker tr dets).2.workers = []) ∧
        ∀ (cam loc : String) (st : StreamState) (t : Time) (oracle : SaveResult),
          (processFrame cam loc true st
              ⟨t, (analyzeDetectionsPerWorker tr dets).2.workers.map
                  (fun w => (w, oracle))⟩).db = st.db := by
  intro tr dets hnp
  have hp : parseDetections dets = ([], (parseDetections dets).2) := by
    have := parseDetections_no_person dets hnp
    exact Prod.ext this rfl
  have hagg : (analyzeDetectionsPerWorker tr dets).2 = calculateAggregateStatistics [] := by
    rw [analyzeDetectionsPerWorker, hp]
    simp [trackWorkers_nil_out, assignPPE_nil]
  refine ⟨⟨?_, ?_, ?_, ?_⟩, ?_⟩
  · rw [hagg]; rfl
  · rw [hagg]; rfl
  · rw [hagg]; rfl
  · rw [hagg]; rfl
  · intro cam loc st t oracle
    have hw : (analyzeDetectionsPerWorker tr dets).2.workers = [] := by rw [hagg]; rfl
    rw [hw]
    exact processFrame_no_workers_db cam loc true st t

/-- C10 witness: the theorem applied to a fresh tracker and a frame containing
a single Hardhat detection (no Person). -/
theorem no_person_frame_aggregate_witness :
    ((analyzeDetectionsPerWorker freshTracker [⟨"Hardhat", 1, ⟨0, 0, 5, 5⟩⟩]).2.person_detected
        = false ∧
      (analyzeDetectionsPerWorker freshTracker [⟨"Hardhat", 1, ⟨0, 0, 5, 5⟩⟩]).2.is_compliant
        = none ∧
      (analyzeDetectionsPerWorker freshTracker
          [⟨"Hardhat", 1, ⟨0, 0, 5, 5⟩⟩]).2.safety_status = "No Person Detected" ∧
      (analyzeDetectionsPerWorker freshTracker [⟨"Hardhat", 1, ⟨0, 0, 5, 5⟩⟩]).2.workers
        = []) ∧
    ∀ (cam loc : String) (st : StreamState) (t : Time) (oracle : SaveResult),
      (processFrame cam loc true st
          ⟨t, (analyzeDetectionsPerWorker freshTracker
              [⟨"Hardhat", 1, ⟨0, 0, 5, 5⟩⟩]).2.workers.map (fun w => (w, oracle))⟩).db =
        st.db :=
  no_person_frame_aggregate freshTracker [⟨"Hardhat", 1, ⟨0, 0, 5, 5⟩⟩]
    (by decide)

/-! ## C9 — violation record fields and alert severity -/

theorem severity_missing_hardhat :
    severityForViolation (some "Missing Hardhat") = AlertSeverity.high := by decide

theorem severity_missing_vest :
    severityForViolation (some "Missing Safety Vest") = AlertSeverity.medium := by decide

theorem severity_missing_both :
    severityForViolation (some "Missing Hardhat and Safety Vest") = AlertSeverity.high := by
  decide

/-- C9: a worker the evaluator classifies as a violation yields, on a
successful `save_violation_with_snapshot`, a detection record with
`is_compliant = false`, `person_detected = true` and a non-null violation
type, plus an alert in the same call whose severity is High for MissingBoth
and MissingHardhat and Medium for MissingVest. -/
theorem violation_record_fields_and_severity :
    ∀ (p : Person) (cam loc : String) (snap : Option String) (t : Time) (dur : ℚ)
      (db : DB),
      (evaluateWorkerCompliance p).is_compliant = some false →
      ((violationDetectionRecord cam (evaluateWorkerCompliance p) snap t dur).is_compliant
          = false ∧
        (violationDetectionRecord cam (evaluateWorkerCompliance p) snap t dur).person_detected
          = true ∧
        (violationDetectionRecord cam (evaluateWorkerCompliance p) snap t dur).violation_type
          ≠ none) ∧
      saveViolationWithSnapshot cam loc (evaluateWorkerCompliance p) snap t dur
          SaveResult.ok db =
        ({ detections :=
            db.detections ++ [violationDetectionRecord cam (evaluateWorkerCompliance p) snap t dur]
           alerts :=
            db.alerts ++
              [violationAlertRecord db.detections.length (evaluateWorkerCompliance p) loc t] },
          true) ∧
      (violationAlertRecord db.detections.length (evaluateWorkerCompliance p) loc t).severity =
        (if specViolationKind p.hardhat p.no_hardhat p.vest p.no_vest =
            some ViolationKind.missingVest
         then AlertSeverity.medium else AlertSeverity.high) := by
  intro p cam loc snap t dur db hviol
  obtain ⟨bb, h, nh, v, nv, conf, ic, stt, vt, vc, wid⟩ := p
  refine ⟨⟨rfl, rfl, ?_⟩, ?_, ?_⟩
  · cases h <;> cases nh <;> cases v <;> cases nv <;>
      simp_all [evaluateWorkerCompliance, violationDetectionRecord]
  · simp [saveViolationWithSnapshot]
  · cases h <;> cases nh <;> cases v <;> cases nv <;>
      simp_all [evaluateWorkerCompliance, violationAlertRecord, specViolationKind] <;>
      decide

/-- C9 witness: the theorem at a worker missing only the safety vest, saving
into an empty database (severity Medium). -/
theorem violation_record_fields_and_severity_witness :
    ((violationDetectionRecord "cam1"
          (evaluateWorkerCompliance (personOfFlags false false false true)) none 0 5).is_compliant
        = false ∧
      (violationDetectionRecord "cam1"
          (evaluateWorkerCompliance (personOfFlags false false false true)) none 0 5).person_detected
        = true ∧
      (violationDetectionRecord "cam1"
          (evaluateWorkerCompliance (personOfFlags false false false true)) none 0 5).violation_type
        ≠ none) ∧
    saveViolationWithSnapshot "cam1" "Site A"
        (evaluateWorkerCompliance (personOfFlags false false false true)) none 0 5
        SaveResult.ok ⟨[], []⟩ =
      ({ detections :=
          [violationDetectionRecord "cam1"
              (evaluateWorkerCompliance (personOfFlags false false false true)) none 0 5]
         alerts :=
          [violationAlertRecord 0
              (evaluateWorkerCompliance (personOfFlags false false false true)) "Site A" 0] },
        true) ∧
    (violationAlertRecord 0
          (evaluateWorkerCompliance (personOfFlags false false false true)) "Site A" 0).severity =
      (if specViolationKind false false false true = some ViolationKind.missingVest
       then AlertSeverity.medium else AlertSeverity.high) := by
  have := violation_record_fields_and_severity (personOfFlags false false false true)
    "cam1" "Site A" none 0 5 ⟨[], []⟩ (by decide)
  simpa using this

/-! ## C8 — a detector exception terminates the stream -/

/-- C8 counterexample: on `detectorCrashInput` the detector raises while
processing the first frame; the loop exits at once with a detector exception
and the second frame — which would have recorded a violation start for worker
1 — is never processed (the state is returned untouched).  The claim's
"the pipeline continues with subsequent frames" is false of the code: there is
no per-frame handler around `yolo_service.detect_with_tracking`. -/
theorem detector_error_stops_stream_cex :
    runFrames "cam1" "Site A" true initialStreamState detectorCrashInput =
      (initialStreamState, StreamExit.detectorException) := rfl

/-- C8 amended: a detector exception while processing a frame is caught only
by the stream-level handler: the error is logged and broadcast, the loop stops
(earlier frames keep their effects, the raising frame and all later frames
have none), and the always-executed teardown still runs. -/
theorem detector_exception_terminates_stream :
    ∀ (cam loc : String) (sd : Bool) (st : StreamState) (pre : List Frame)
      (post : List FrameIn),
      runFrames cam loc sd st (pre.map FrameIn.nextFrame ++ FrameIn.detectRaise :: post) =
          (pre.foldl (processFrame cam loc sd) st, StreamExit.detectorException) ∧
        processCameraStream cam loc sd st
            (pre.map FrameIn.nextFrame ++ FrameIn.detectRaise :: post) =
          ({ pre.foldl (processFrame cam loc sd) st with
              mgr := teardownCleanup cam (pre.foldl (processFrame cam loc sd) st).mgr },
            StreamExit.detectorException) := by
  intro cam loc sd st pre post
  have hrun : ∀ st' : StreamState,
      runFrames cam loc sd st' (pre.map FrameIn.nextFrame ++ FrameIn.detectRaise :: post) =
        (pre.foldl (processFrame cam loc sd) st', StreamExit.detectorException) := by
    induction pre with
    | nil => intro st'; rfl
    | cons f rest ih =>
      intro st'
      simpa [runFrames] using ih (processFrame cam loc sd st' f)
  refine ⟨hrun st, ?_⟩
  rw [processCameraStream, hrun st]

/-! ## Shape of one worker step of the detection-saving loop -/

/-- Case analysis of `processWorkerDetection`: the step leaves the pair
unchanged, or clears the start key on compliance, or records a violation
start, or attempts a save whose persistence-window and cooldown checks have
passed (appending the detection row, plus the alert and the save-time update
exactly when the call succeeds). -/
theorem processWorkerDetection_shape (cam loc : String) (t : Time)
    (mgr : ManagerTracking) (db : DB) (w : Person) (oc : SaveResult) :
    (w.is_compliant = none ∧
      processWorkerDetection cam loc t (mgr, db) (w, oc) = (mgr, db)) ∨
    (w.is_compliant = some true ∧
      processWorkerDetection cam loc t (mgr, db) (w, oc) =
        ({ mgr with
            worker_violation_start_time := dictDel ⟨cam, w.worker_id⟩
              mgr.worker_violation_start_time }, db)) ∨
    (w.is_compliant = some false ∧
      dictGet ⟨cam, w.worker_id⟩ mgr.worker_violation_start_time = none ∧
      processWorkerDetection cam loc t (mgr, db) (w, oc) =
        ({ mgr with
            worker_violation_start_time := dictSet ⟨cam, w.worker_id⟩ t
              mgr.worker_violation_start_time }, db)) ∨
    (w.is_compliant = some false ∧
      processWorkerDetection cam loc t (mgr, db) (w, oc) = (mgr, db)) ∨
    (w.is_compliant = some false ∧
      ∃ t0, dictGet ⟨cam, w.worker_id⟩ mgr.worker_violation_start_time = some t0 ∧
        violation_persistence_seconds ≤ t - t0 ∧
        (∀ ts, dictGet ⟨cam, w.worker_id⟩ mgr.last_worker_violation_save_time = some ts →
          ts + violation_cooldown_seconds ≤ t) ∧
        ((oc = SaveResult.ok ∧
          processWorkerDetection cam loc t (mgr, db) (w, oc) =
            ({ mgr with
                last_worker_violation_save_time := dictSet ⟨cam, w.worker_id⟩ t
                  mgr.last_worker_violation_save_time },
              { detections := db.detections ++
                  [violationDetectionRecord cam w (snapshotURL cam w.worker_id) t (t - t0)]
                alerts := db.alerts ++
                  [violationAlertRecord db.detections.length w loc t] })) ∨
         (oc = SaveResult.failBetween ∧
          processWorkerDetection cam loc t (mgr, db) (w, oc) =
            (mgr, { db with detections := db.detections ++
                [violationDetectionRecord cam w (snapshotURL cam w.worker_id) t
                  (t - t0)] })))) := by
  cases hic : w.is_compliant with
  | none =>
    left
    exact ⟨rfl, by simp [processWorkerDetection, hic]⟩
  | some b =>
    cases b with
    | true =>
      right; left
      exact ⟨rfl, by simp [processWorkerDetection, hic]⟩
    | false =>
      cases hg : dictGet ⟨cam, w.worker_id⟩ mgr.worker_violation_start_time with
      | none =>
        right; right; left
        exact ⟨rfl, rfl, by simp [processWorkerDetection, hic, hg]⟩
      | some t0 =>
        by_cases hd : t - t0 < violation_persistence_seconds
        · right; right; right; left
          exact ⟨rfl, by simp [processWorkerDetection, hic, hg, hd]⟩
        · cases hl : dictGet ⟨cam, w.worker_id⟩ mgr.last_worker_violation_save_time with
          | some ts =>
            by_cases hc : t - ts < violation_cooldown_seconds
            · right; right; right; left
              exact ⟨rfl, by simp [processWorkerDetection, hic, hg, hd, hl, hc]⟩
            · cases oc with
              | ok =>
                right; right; right; right
                refine ⟨rfl, t0, rfl, not_lt.mp hd, ?_, Or.inl ⟨rfl, ?_⟩⟩
                · intro ts' hts'
                  have hEq : ts = ts' := by injection hts'
                  subst hEq
                  have := not_lt.mp hc
                  linarith
                · simp [processWorkerDetection, hic, hg, hd, hl, hc,
                    saveViolationWithSnapshot, List.length_append]
              | failBetween =>
                right; right; right; right
                refine ⟨rfl, t0, rfl, not_lt.mp hd, ?_, Or.inr ⟨rfl, ?_⟩⟩
                · intro ts' hts'
                  have hEq : ts = ts' := by injection hts'
                  subst hEq
                  have := not_lt.mp hc
                  linarith
                · simp [processWorkerDetection, hic, hg, hd, hl, hc,
                    saveViolationWithSnapshot]
              | failEarly =>
                right; right; right; left
                exact ⟨rfl, by simp [processWorkerDetection, hic, hg, hd, hl, hc,
                  saveViolationWithSnapshot]⟩
          | none =>
            cases oc with
            | ok =>
              right; right; right; right
              refine ⟨rfl, t0, rfl, not_lt.mp hd, ?_, Or.inl ⟨rfl, ?_⟩⟩
              · intro ts' hts'; cases hts'
              · simp [processWorkerDetection, hic, hg, hd, hl,
                  saveViolationWithSnapshot, List.length_append]
            | failBetween =>
              right; right; right; right
              refine ⟨rfl, t0, rfl, not_lt.mp hd, ?_, Or.inr ⟨rfl, ?_⟩⟩
              · intro ts' hts'; cases hts'
              · simp [processWorkerDetection, hic, hg, hd, hl,
                  saveViolationWithSnapshot]
            | failEarly =>
              right; right; right; left
              exact ⟨rfl, by simp [processWorkerDetection, hic, hg, hd, hl,
                saveViolationWithSnapshot]⟩

/-- A worker step never touches dict entries of a different composite key. -/
theorem processWorkerDetection_get_other (cam loc : String) (t : Time)
    (mgr : ManagerTracking) (db : DB) (w : Person) (oc : SaveResult) (key : TrackKey)
    (hne : key ≠ ⟨cam, w.worker_id⟩) :
    dictGet key
        (processWorkerDetection cam loc t (mgr, db) (w, oc)).1.worker_violation_start_time =
        dictGet key mgr.worker_violation_start_time ∧
      dictGet key
          (processWorkerDetection cam loc t (mgr, db) (w, oc)).1.last_worker_violation_save_time =
        dictGet key mgr.last_worker_violation_save_time := by
  have hne' : (⟨cam, w.worker_id⟩ : TrackKey) ≠ key := Ne.symm hne
  rcases processWorkerDetection_shape cam loc t mgr db w oc with
    ⟨_, heq⟩ | ⟨_, heq⟩ | ⟨_, _, heq⟩ | ⟨_, heq⟩ |
    ⟨_, t0, _, _, _, ⟨_, heq⟩ | ⟨_, heq⟩⟩ <;>
    rw [heq] <;>
    simp [dictGet_dictDel_other hne', dictGet_dictSet_other hne']

/-- A step for a Compliant worker clears the violation start for its key and
leaves the save-time entry untouched. -/
theorem processWorkerDetection_compliant (cam loc : String) (t : Time)
    (mgr : ManagerTracking) (db : DB) (w : Person) (oc : SaveResult)
    (hc : w.is_compliant = some true) :
    dictGet ⟨cam, w.worker_id⟩
        (processWorkerDetection cam loc t (mgr, db) (w, oc)).1.worker_violation_start_time =
        none ∧
      (processWorkerDetection cam loc t (mgr, db) (w, oc)).1.last_worker_violation_save_time =
        mgr.last_worker_violation_save_time := by
  rcases processWorkerDetection_shape cam loc t mgr db w oc with
    ⟨hic, heq⟩ | ⟨hic, heq⟩ | ⟨hic, _, heq⟩ | ⟨hic, heq⟩ |
    ⟨hic, t0, _, _, _, ⟨_, heq⟩ | ⟨_, heq⟩⟩ <;>
    rw [hc] at hic <;> try cases hic
  case _ => rw [heq]; exact ⟨dictGet_dictDel_self _ _, rfl⟩

/-- A step for an Unknown worker is skipped entirely. -/
theorem processWorkerDetection_unknown (cam loc : String) (t : Time)
    (mgr : ManagerTracking) (db : DB) (w : Person) (oc : SaveResult)
    (hu : w.is_compliant = none) :
    processWorkerDetection cam loc t (mgr, db) (w, oc) = (mgr, db) := by
  rcases processWorkerDetection_shape cam loc t mgr db w oc with
    ⟨hic, heq⟩ | ⟨hic, heq⟩ | ⟨hic, _, heq⟩ | ⟨hic, heq⟩ |
    ⟨hic, t0, _, _, _, ⟨_, heq⟩ | ⟨_, heq⟩⟩ <;>
    rw [hu] at hic <;> first
      | exact heq
      | cases hic

/-- Folding worker steps over workers with other ids preserves both dict
entries of a key. -/
theorem foldl_processWorkerDetection_get (cam loc : String) (t : Time)
    (key : TrackKey) :
    ∀ (l : List (Person × SaveResult)),
      (∀ wo ∈ l, key ≠ (⟨cam, wo.1.worker_id⟩ : TrackKey)) →
      ∀ st : ManagerTracking × DB,
        dictGet key
            (l.foldl (processWorkerDetection cam loc t) st).1.worker_violation_start_time =
            dictGet key st.1.worker_violation_start_time ∧
          dictGet key
              (l.foldl (processWorkerDetection cam loc t) st).1.last_worker_violation_save_time =
            dictGet key st.1.last_worker_violation_save_time := by
  intro l
  induction l with
  | nil => intro _ st; exact ⟨rfl, rfl⟩
  | cons wo rest ih =>
    intro hall st
    obtain ⟨mgr, db⟩ := st
    obtain ⟨w, oc⟩ := wo
    have hne : key ≠ (⟨cam, w.worker_id⟩ : TrackKey) := hall (w, oc) (by simp)
    have hstep := processWorkerDetection_get_other cam loc t mgr db w oc key hne
    have hrest := ih (fun x hx => hall x (by simp [hx]))
      (processWorkerDetection cam loc t (mgr, db) (w, oc))
    refine ⟨?_, ?_⟩
    · rw [List.foldl_cons, hrest.1, hstep.1]
    · rw [List.foldl_cons, hrest.2, hstep.2]

/-- `removeTrackKey` leaves entries of other keys in place. -/
theorem removeTrackKey_get_other (k key : TrackKey) (hne : k ≠ key)
    (mgr : ManagerTracking) :
    dictGet key (removeTrackKey k mgr).worker_violation_start_time =
        dictGet key mgr.worker_violation_start_time ∧
      dictGet key (removeTrackKey k mgr).last_worker_violation_save_time =
        dictGet key mgr.last_worker_violation_save_time := by
  exact ⟨dictGet_dictDel_other hne _, dictGet_dictDel_other hne _⟩

/-- Folding `removeTrackKey` over ids different from the key's worker leaves
its entries in place. -/
theorem foldl_removeTrackKey_get (cam : String) (key : TrackKey) :
    ∀ ids : List Nat, (∀ x ∈ ids, (⟨cam, x⟩ : TrackKey) ≠ key) →
      ∀ mgr : ManagerTracking,
        dictGet key
            (ids.foldl (fun m wid => removeTrackKey ⟨cam, wid⟩ m) mgr).worker_violation_start_time =
            dictGet key mgr.worker_violation_start_time ∧
          dictGet key
              (ids.foldl (fun m wid => removeTrackKey ⟨cam, wid⟩ m) mgr).last_worker_violation_save_time =
            dictGet key mgr.last_worker_violation_save_time := by
  intro ids
  induction ids with
  | nil => intro _ mgr; exact ⟨rfl, rfl⟩
  | cons x rest ih =>
    intro hall mgr
    have hx := removeTrackKey_get_other ⟨cam, x⟩ key (hall x (by simp)) mgr
    have hrest := ih (fun y hy => hall y (by simp [hy])) (removeTrackKey ⟨cam, x⟩ mgr)
    refine ⟨?_, ?_⟩
    · rw [List.foldl_cons, hrest.1, hx.1]
    · rw [List.foldl_cons, hrest.2, hx.2]

/-- The stale-worker sweep never removes entries of a worker that is in the
current frame. -/
theorem cleanupStaleWorkers_get_of_mem (cam : String) (mgr : ManagerTracking)
    (seen : List (Nat × Time)) (currentIds : List Nat) (t : Time) (thr : ℚ)
    (key : TrackKey) (hmem : key.worker ∈ currentIds) :
    dictGet key
        (cleanupStaleWorkers cam mgr seen currentIds t thr).1.worker_violation_start_time =
        dictGet key mgr.worker_violation_start_time ∧
      dictGet key
          (cleanupStaleWorkers cam mgr seen currentIds t thr).1.last_worker_violation_save_time =
        dictGet key mgr.last_worker_violation_save_time := by
  apply foldl_removeTrackKey_get
  intro x hx
  simp only [List.mem_map, List.mem_filter] at hx
  obtain ⟨q, ⟨_, hcond⟩, hq⟩ := hx
  have hnotin : ¬ q.1 ∈ currentIds := by
    by_contra hin
    simp [hin] at hcond
  intro hkey
  apply hnotin
  rw [hq] at hnotin ⊢
  have : key.worker = x := by rw [← hkey]
  rw [← this] at hnotin ⊢
  exact hmem

/-- The stale sweep of a frame never removes entries of a worker present in
that frame. -/
theorem frameCleanup_get_of_mem (cam : String) (st : StreamState) (f : Frame)
    (key : TrackKey)
    (hmem : key.worker ∈ f.workers.map (fun wo => wo.1.worker_id)) :
    dictGet key (frameCleanup cam st f).1.worker_violation_start_time =
        dictGet key st.mgr.worker_violation_start_time ∧
      dictGet key (frameCleanup cam st f).1.last_worker_violation_save_time =
        dictGet key st.mgr.last_worker_violation_save_time := by
  rw [frameCleanup]
  by_cases h150 : st.frame_count % 150 = 0
  · rw [if_pos h150]
    exact cleanupStaleWorkers_get_of_mem _ _ _ _ _ _ key hmem
  · rw [if_neg h150]
    exact ⟨rfl, rfl⟩

/-- The manager dicts after a frame (with detection saving on) are those
produced by the worker fold on the post-cleanup manager. -/
theorem processFrame_mgr (cam loc : String) (st : StreamState) (f : Frame) :
    (processFrame cam loc true st f).mgr =
      (f.workers.foldl (processWorkerDetection cam loc f.time)
        ((frameCleanup cam st f).1, st.db)).1 := rfl

/-- The database after a frame (with detection saving on): the worker fold
runs first, then — when the global snapshot interval has elapsed — the
compliance fold over all workers. -/
theorem processFrame_db (cam loc : String) (st : StreamState) (f : Frame) :
    (processFrame cam loc true st f).db =
      (if f.time - st.last_global_compliance_snapshot_time ≥
            compliance_snapshot_interval_seconds ∧ true = true then
        f.workers.foldl (complianceSaveStep cam f.time)
          (f.workers.foldl (processWorkerDetection cam loc f.time)
            ((frameCleanup cam st f).1, st.db)).2
      else
        (f.workers.foldl (processWorkerDetection cam loc f.time)
          ((frameCleanup cam st f).1, st.db)).2) := by
  simp only [processFrame]
  split
  · rfl
  · rfl

/-- With detection saving off, a frame persists nothing. -/
theorem processFrame_db_off (cam loc : String) (st : StreamState) (f : Frame) :
    (processFrame cam loc false st f).db = st.db := by
  simp only [processFrame]
  split
  · rename_i hcond
    exact absurd hcond.2 (by simp)
  · rfl

/-- Worker-fold behaviour around one distinguished worker whose id occurs
nowhere else in the frame. -/
theorem foldl_step_around (cam loc : String) (t : Time)
    (l1 l2 : List (Person × SaveResult)) (w : Person) (oc : SaveResult)
    (h1 : ∀ x ∈ l1, w.worker_id ≠ x.1.worker_id)
    (h2 : ∀ x ∈ l2, w.worker_id ≠ x.1.worker_id)
    (st : ManagerTracking × DB) :
    (w.is_compliant = some true →
      dictGet ⟨cam, w.worker_id⟩
          ((l1 ++ (w, oc) :: l2).foldl
            (processWorkerDetection cam loc t) st).1.worker_violation_start_time = none ∧
        dictGet ⟨cam, w.worker_id⟩
            ((l1 ++ (w, oc) :: l2).foldl
              (processWorkerDetection cam loc t) st).1.last_worker_violation_save_time =
          dictGet ⟨cam, w.worker_id⟩ st.1.last_worker_violation_save_time) ∧
    (w.is_compliant = none →
      dictGet ⟨cam, w.worker_id⟩
          ((l1 ++ (w, oc) :: l2).foldl
            (processWorkerDetection cam loc t) st).1.worker_violation_start_time =
          dictGet ⟨cam, w.worker_id⟩ st.1.worker_violation_start_time ∧
        dictGet ⟨cam, w.worker_id⟩
            ((l1 ++ (w, oc) :: l2).foldl
              (processWorkerDetection cam loc t) st).1.last_worker_violation_save_time =
          dictGet ⟨cam, w.worker_id⟩ st.1.last_worker_violation_save_time) := by
  have hkey1 : ∀ x ∈ l1, (⟨cam, w.worker_id⟩ : TrackKey) ≠ ⟨cam, x.1.worker_id⟩ := by
    intro x hx heq
    exact h1 x hx (congrArg TrackKey.worker heq)
  have hkey2 : ∀ x ∈ l2, (⟨cam, w.worker_id⟩ : TrackKey) ≠ ⟨cam, x.1.worker_id⟩ := by
    intro x hx heq
    exact h2 x hx (congrArg TrackKey.worker heq)
  rw [List.foldl_append, List.foldl_cons]
  have hbefore := foldl_processWorkerDetection_get cam loc t ⟨cam, w.worker_id⟩ l1 hkey1 st
  rcases hA : l1.foldl (processWorkerDetection cam loc t) st with ⟨mgrA, dbA⟩
  rw [hA] at hbefore
  have hafter := fun st' =>
    foldl_processWorkerDetection_get cam loc t ⟨cam, w.worker_id⟩ l2 hkey2 st'
  constructor
  · intro hc
    have hstep := processWorkerDetection_compliant cam loc t mgrA dbA w oc hc
    have h2' := hafter (processWorkerDetection cam loc t (mgrA, dbA) (w, oc))
    refine ⟨?_, ?_⟩
    · rw [h2'.1, hstep.1]
    · rw [h2'.2, hstep.2, hbefore.2]
  · intro hu
    have hstep := processWorkerDetection_unknown cam loc t mgrA dbA w oc hu
    have h2' := hafter (mgrA, dbA)
    rw [hstep]
    exact ⟨by rw [h2'.1, hbefore.1], by rw [h2'.2, hbefore.2]⟩

/-! ## C2 — Compliant clears the violation start; Unknown is skipped -/

/-- C2 counterexample: a worker classified Unknown (`is_compliant = None`) on
a frame does not get its `worker_violation_start_time` entry cleared — the
per-worker loop skips Unknown workers before the clearing branch, so the entry
persists after the frame, contradicting the claim. -/
theorem unknown_worker_start_retained_cex :
    dictGet ⟨"cam1", 1⟩
        (processFrame "cam1" "Site A" true pendingStartState
          ⟨1, [(unknownWorker, SaveResult.ok)]⟩).mgr.worker_violation_start_time =
      some 0 := by
  with_unfolding_all decide

/-- C2 amended: with detection saving enabled and pairwise-distinct worker ids
in the frame, a worker classified Compliant has its violation-start entry
absent after the frame while its last-save entry is retained unchanged; a
worker classified Unknown is skipped entirely, leaving both its
violation-start and last-save entries exactly as they were (not cleared). -/
theorem compliant_clears_start_unknown_skips :
    ∀ (cam loc : String) (st : StreamState) (f : Frame),
      (f.workers.map (fun wo => wo.1.worker_id)).Nodup →
      ∀ wo ∈ f.workers,
        (wo.1.is_compliant = some true →
          dictGet ⟨cam, wo.1.worker_id⟩
              (processFrame cam loc true st f).mgr.worker_violation_start_time = none ∧
            dictGet ⟨cam, wo.1.worker_id⟩
                (processFrame cam loc true st f).mgr.last_worker_violation_save_time =
              dictGet ⟨cam, wo.1.worker_id⟩ st.mgr.last_worker_violation_save_time) ∧
        (wo.1.is_compliant = none →
          dictGet ⟨cam, wo.1.worker_id⟩
              (processFrame cam loc true st f).mgr.worker_violation_start_time =
            dictGet ⟨cam, wo.1.worker_id⟩ st.mgr.worker_violation_start_time ∧
          dictGet ⟨cam, wo.1.worker_id⟩
              (processFrame cam loc true st f).mgr.last_worker_violation_save_time =
            dictGet ⟨cam, wo.1.worker_id⟩ st.mgr.last_worker_violation_save_time) := by
  intro cam loc st f hnd wo hin
  obtain ⟨ft, fw⟩ := f
  simp only at hnd hin
  obtain ⟨l1, l2, hsplit⟩ := List.append_of_mem hin
  subst hsplit
  obtain ⟨w, oc⟩ := wo
  rw [List.map_append, List.map_cons] at hnd
  have hd1 := (List.nodup_append.mp hnd).2.2
  have hd2 := List.nodup_cons.mp (List.nodup_append.mp hnd).2.1
  have h1 : ∀ x ∈ l1, w.worker_id ≠ x.1.worker_id := by
    intro x hx heq
    have hmem : x.1.worker_id ∈ l1.map (fun wo => wo.1.worker_id) :=
      List.mem_map_of_mem (fun (wo : Person × SaveResult) => wo.1.worker_id) hx
    rw [← heq] at hmem
    exact hd1 hmem (by simp)
  have h2 : ∀ x ∈ l2, w.worker_id ≠ x.1.worker_id := by
    intro x hx heq
    have hmem : x.1.worker_id ∈ l2.map (fun wo => wo.1.worker_id) :=
      List.mem_map_of_mem (fun (wo : Person × SaveResult) => wo.1.worker_id) hx
    rw [← heq] at hmem
    exact hd2.1 hmem
  have hmemid :
      (⟨cam, w.worker_id⟩ : TrackKey).worker ∈
        (Frame.mk ft (l1 ++ (w, oc) :: l2)).workers.map (fun wo => wo.1.worker_id) := by
    simp
  rw [processFrame_mgr]
  have hA := frameCleanup_get_of_mem cam st ⟨ft, l1 ++ (w, oc) :: l2⟩
    ⟨cam, w.worker_id⟩ hmemid
  have haround := foldl_step_around cam loc ft l1 l2 w oc h1 h2
    ((frameCleanup cam st ⟨ft, l1 ++ (w, oc) :: l2⟩).1, st.db)
  refine ⟨fun hcp => ?_, fun hu => ?_⟩
  · have hr := haround.1 hcp
    exact ⟨hr.1, by rw [hr.2]; exact hA.2⟩
  · have hr := haround.2 hu
    exact ⟨by rw [hr.1]; exact hA.1, by rw [hr.2]; exact hA.2⟩

/-- C2 witness: the amended statement at a one-worker frame. -/
theorem compliant_clears_start_unknown_skips_witness :
    (dictGet ⟨"cam1", 1⟩
        (processFrame "cam1" "Site A" true startAndSaveState
          ⟨1, [(compliantWorker, SaveResult.ok)]⟩).mgr.worker_violation_start_time = none ∧
      dictGet ⟨"cam1", 1⟩
          (processFrame "cam1" "Site A" true startAndSaveState
            ⟨1, [(compliantWorker, SaveResult.ok)]⟩).mgr.last_worker_violation_save_time =
        dictGet ⟨"cam1", 1⟩ startAndSaveState.mgr.last_worker_violation_save_time) :=
  (compliant_clears_start_unknown_skips "cam1" "Site A" startAndSaveState
      ⟨1, [(compliantWorker, SaveResult.ok)]⟩ (by decide)
      (compliantWorker, SaveResult.ok) (List.mem_singleton.mpr rfl)).1 rfl

/-! ## C3 — teardown misses keys absent from the start dict -/

/-- C3: the always-executed teardown collects the keys to remove only from
`worker_violation_start_time`, so a camera key that lives only in
`last_worker_violation_save_time` survives teardown.  Reachable run: a
violation of worker 1 starts at `t = 0`, is saved at `t = 6` (recording the
save time), and the worker turns compliant at `t = 7`, which clears the start
entry; teardown then leaves the `("cam1", 1)` cooldown entry in place — the
code contradicts its own comment ("Remove all tracking entries for this
camera") and spec P6. -/
theorem teardown_leaves_cooldown_entry :
    dictGet ⟨"cam1", 1⟩
        (processCameraStream "cam1" "Site A" true initialStreamState
          teardownBugInput).1.mgr.last_worker_violation_save_time = some 6 ∧
      dictGet ⟨"cam1", 1⟩
          (processCameraStream "cam1" "Site A" true initialStreamState
            teardownBugInput).1.mgr.worker_violation_start_time = none := by
  with_unfolding_all decide

/-! ## C7 — Unknown workers never produce a persisted record -/

/-- One worker step appends at most one row, and only for a worker classified
as a violation; the row is a violation row at the step's time whose duration
passed the persistence window. -/
theorem processWorkerDetection_db_new (cam loc : String) (t : Time)
    (mgr : ManagerTracking) (db : DB) (w : Person) (oc : SaveResult) :
    ∃ new : List DetectionRecord,
      (processWorkerDetection cam loc t (mgr, db) (w, oc)).2.detections =
          db.detections ++ new ∧
        ∀ r ∈ new, r.worker_id = w.worker_id ∧ w.is_compliant = some false ∧
          r.is_compliant = false ∧ r.camera_id = cam ∧ r.timestamp = t ∧
          ∃ d, r.violation_duration = some d ∧ violation_persistence_seconds ≤ d := by
  rcases processWorkerDetection_shape cam loc t mgr db w oc with
    ⟨hic, heq⟩ | ⟨hic, heq⟩ | ⟨hic, _, heq⟩ | ⟨hic, heq⟩ |
    ⟨hic, t0, hg, hdur, hcool, ⟨hoc, heq⟩ | ⟨hoc, heq⟩⟩
  · exact ⟨[], by rw [heq]; simp, by simp⟩
  · exact ⟨[], by rw [heq]; simp, by simp⟩
  · exact ⟨[], by rw [heq]; simp, by simp⟩
  · exact ⟨[], by rw [heq]; simp, by simp⟩
  · refine ⟨[violationDetectionRecord cam w (snapshotURL cam w.worker_id) t (t - t0)],
      by rw [heq], ?_⟩
    intro r hr
    rw [List.mem_singleton] at hr
    subst hr
    exact ⟨rfl, hic, rfl, rfl, rfl, t - t0, rfl, hdur⟩
  · refine ⟨[violationDetectionRecord cam w (snapshotURL cam w.worker_id) t (t - t0)],
      by rw [heq], ?_⟩
    intro r hr
    rw [List.mem_singleton] at hr
    subst hr
    exact ⟨rfl, hic, rfl, rfl, rfl, t - t0, rfl, hdur⟩

/-- The worker fold appends only violation rows of violating workers. -/
theorem foldl_step_db_new (cam loc : String) (t : Time) :
    ∀ (l : List (Person × SaveResult)) (st : ManagerTracking × DB),
      ∃ new : List DetectionRecord,
        (l.foldl (processWorkerDetection cam loc t) st).2.detections =
            st.2.detections ++ new ∧
          ∀ r ∈ new, ∃ wo ∈ l, r.worker_id = wo.1.worker_id ∧
            wo.1.is_compliant = some false ∧ r.is_compliant = false ∧
            r.camera_id = cam ∧ r.timestamp = t ∧
            ∃ d, r.violation_duration = some d ∧ violation_persistence_seconds ≤ d := by
  intro l
  induction l with
  | nil => intro st; exact ⟨[], by simp, by simp⟩
  | cons wo rest ih =>
    intro st
    obtain ⟨mgr, db⟩ := st
    obtain ⟨w, oc⟩ := wo
    obtain ⟨n1, hn1, hp1⟩ := processWorkerDetection_db_new cam loc t mgr db w oc
    obtain ⟨n2, hn2, hp2⟩ := ih (processWorkerDetection cam loc t (mgr, db) (w, oc))
    refine ⟨n1 ++ n2, ?_, ?_⟩
    · rw [List.foldl_cons, hn2, hn1, List.append_assoc]
    · intro r hr
      rcases List.mem_append.mp hr with hr1 | hr2
      · obtain ⟨e1, e2, e3, e4, e5, e6⟩ := hp1 r hr1
        exact ⟨(w, oc), by simp, e1, e2, e3, e4, e5, e6⟩
      · obtain ⟨wo', hwo', hrest⟩ := hp2 r hr2
        exact ⟨wo', by simp [hwo'], hrest⟩

/-- One compliance-snapshot step appends at most one row, and only for a
worker classified Compliant whose save succeeded. -/
theorem complianceSaveStep_db_new (cam : String) (t : Time) (db : DB)
    (wo : Person × SaveResult) :
    ∃ new : List DetectionRecord,
      (complianceSaveStep cam t db wo).detections = db.detections ++ new ∧
        ∀ r ∈ new, r.worker_id = wo.1.worker_id ∧ wo.1.is_compliant = some true ∧
          r.is_compliant = true ∧ r.camera_id = cam ∧ r.timestamp = t ∧
          r.violation_duration = none := by
  rw [complianceSaveStep]
  split
  · rename_i hcond
    refine ⟨[complianceDetectionRecord cam wo.1 t], rfl, ?_⟩
    intro r hr
    rw [List.mem_singleton] at hr
    subst hr
    exact ⟨rfl, hcond.1, rfl, rfl, rfl, rfl⟩
  · exact ⟨[], by simp, by simp⟩

/-- The compliance fold appends only compliance rows of Compliant workers. -/
theorem foldl_compliance_db_new (cam : String) (t : Time) :
    ∀ (l : List (Person × SaveResult)) (db : DB),
      ∃ new : List DetectionRecord,
        (l.foldl (complianceSaveStep cam t) db).detections = db.detections ++ new ∧
          ∀ r ∈ new, ∃ wo ∈ l, r.worker_id = wo.1.worker_id ∧
            wo.1.is_compliant = some true ∧ r.is_compliant = true ∧
            r.camera_id = cam ∧ r.timestamp = t ∧ r.violation_duration = none := by
  intro l
  induction l with
  | nil => intro db; exact ⟨[], by simp, by simp⟩
  | cons wo rest ih =>
    intro db
    obtain ⟨n1, hn1, hp1⟩ := complianceSaveStep_db_new cam t db wo
    obtain ⟨n2, hn2, hp2⟩ := ih (complianceSaveStep cam t db wo)
    refine ⟨n1 ++ n2, ?_, ?_⟩
    · rw [List.foldl_cons, hn2, hn1, List.append_assoc]
    · intro r hr
      rcases List.mem_append.mp hr with hr1 | hr2
      · obtain ⟨e1, e2, e3, e4, e5, e6⟩ := hp1 r hr1
        exact ⟨wo, by simp, e1, e2, e3, e4, e5, e6⟩
      · obtain ⟨wo', hwo', hrest⟩ := hp2 r hr2
        exact ⟨wo', by simp [hwo'], hrest⟩

/-- Every row a frame persists belongs to a worker of that frame whose
classification is not Unknown: violation rows to workers classified as
violations (after the persistence window), compliance rows to Compliant
workers. -/
theorem processFrame_db_rows (cam loc : String) (st : StreamState) (f : Frame) :
    ∃ new : List DetectionRecord,
      (processFrame cam loc true st f).db.detections = st.db.detections ++ new ∧
        ∀ r ∈ new, ∃ wo ∈ f.workers, r.worker_id = wo.1.worker_id ∧
          wo.1.is_compliant ≠ none ∧ r.camera_id = cam ∧ r.timestamp = f.time ∧
          (r.is_compliant = false →
            wo.1.is_compliant = some false ∧
              ∃ d, r.violation_duration = some d ∧ violation_persistence_seconds ≤ d) ∧
          (r.is_compliant = true →
            wo.1.is_compliant = some true ∧ r.violation_duration = none) := by
  rw [processFrame_db]
  obtain ⟨n1, hn1, hp1⟩ := foldl_step_db_new cam loc f.time f.workers
    ((frameCleanup cam st f).1, st.db)
  split
  · obtain ⟨n2, hn2, hp2⟩ := foldl_compliance_db_new cam f.time f.workers
      (f.workers.foldl (processWorkerDetection cam loc f.time)
        ((frameCleanup cam st f).1, st.db)).2
    refine ⟨n1 ++ n2, ?_, ?_⟩
    · rw [hn2, hn1, List.append_assoc]
    · intro r hr
      rcases List.mem_append.mp hr with hr1 | hr2
      · obtain ⟨wo, hwo, e1, e2, e3, e4, e5, d, e6, e7⟩ := hp1 r hr1
        refine ⟨wo, hwo, e1, by rw [e2]; simp, e4, e5, fun _ => ⟨e2, d, e6, e7⟩, ?_⟩
        intro hcompl
        rw [e3] at hcompl
        cases hcompl
      · obtain ⟨wo, hwo, e1, e2, e3, e4, e5, e6⟩ := hp2 r hr2
        refine ⟨wo, hwo, e1, by rw [e2]; simp, e4, e5, ?_, fun _ => ⟨e2, e6⟩⟩
        intro hviol
        rw [e3] at hviol
        cases hviol
  · refine ⟨n1, hn1, ?_⟩
    intro r hr
    obtain ⟨wo, hwo, e1, e2, e3, e4, e5, d, e6, e7⟩ := hp1 r hr
    refine ⟨wo, hwo, e1, by rw [e2]; simp, e4, e5, fun _ => ⟨e2, d, e6, e7⟩, ?_⟩
    intro hcompl
    rw [e3] at hcompl
    cases hcompl

/-- C7: a worker with neither head-region nor body-region evidence is
classified Unknown (`is_compliant = None`), and a frame never persists any
record — violation or compliance sample — for a worker classified Unknown on
that frame: every persisted row belongs to a worker whose classification is
not Unknown. -/
theorem unknown_never_persisted :
    (∀ p : Person, (p.hardhat || p.no_hardhat) = false → (p.vest || p.no_vest) = false →
      (evaluateWorkerCompliance p).is_compliant = none) ∧
    ∀ (cam loc : String) (st : StreamState) (f : Frame),
      ∃ new : List DetectionRecord,
        (processFrame cam loc true st f).db.detections = st.db.detections ++ new ∧
          ∀ r ∈ new, ∃ wo ∈ f.workers, r.worker_id = wo.1.worker_id ∧
            wo.1.is_compliant ≠ none := by
  constructor
  · intro p hh hb
    simp [evaluateWorkerCompliance, hh, hb]
  · intro cam loc st f
    obtain ⟨new, hnew, hp⟩ := processFrame_db_rows cam loc st f
    refine ⟨new, hnew, ?_⟩
    intro r hr
    obtain ⟨wo, hwo, e1, e2, _⟩ := hp r hr
    exact ⟨wo, hwo, e1, e2⟩

/-- C7 witness: the theorem applied to a PPE-less person, and to a concrete
frame containing one Unknown worker over a fresh state (that frame persists
nothing). -/
theorem unknown_never_persisted_witness :
    (evaluateWorkerCompliance (personOfFlags false false false false)).is_compliant =
        none ∧
      ∃ new : List DetectionRecord,
        (processFrame "cam1" "Site A" true initialStreamState
            ⟨0, [(unknownWorker, SaveResult.ok)]⟩).db.detections =
          initialStreamState.db.detections ++ new ∧
          ∀ r ∈ new, ∃ wo ∈ [(unknownWorker, SaveResult.ok)],
            r.worker_id = wo.1.worker_id ∧ wo.1.is_compliant ≠ none :=
  ⟨unknown_never_persisted.1 (personOfFlags false false false false) rfl rfl,
    unknown_never_persisted.2 "cam1" "Site A" initialStreamState
      ⟨0, [(unknownWorker, SaveResult.ok)]⟩⟩

/-! ## C1 — cooldown and persistence of violation records -/

theorem cooldownInv_mono (cam : String) (mgr : ManagerTracking)
    (recs : List DetectionRecord) (t t' : Time) (hle : t ≤ t')
    (h : CooldownInv cam mgr recs t) : CooldownInv cam mgr recs t' := by
  intro key
  obtain ⟨hch, hlast⟩ := h key
  refine ⟨hch, fun r hr => ?_⟩
  obtain ⟨hts, hd⟩ := hlast r hr
  exact ⟨le_trans hts hle, hd⟩

theorem violationRowsFor_append_one (key : TrackKey) (recs : List DetectionRecord)
    (r : DetectionRecord) :
    violationRowsFor key (recs ++ [r]) =
      violationRowsFor key recs ++
        (if r.camera_id = key.camera ∧ r.worker_id = key.worker ∧ r.is_compliant = false
         then [r] else []) := by
  rw [violationRowsFor, violationRowsFor, List.filter_append]
  congr 1
  by_cases h : r.camera_id = key.camera ∧ r.worker_id = key.worker ∧ r.is_compliant = false
  · simp [h]
  · simp [h]

theorem violationRowsFor_append_true (key : TrackKey) (recs new : List DetectionRecord)
    (h : ∀ r ∈ new, r.is_compliant = true) :
    violationRowsFor key (recs ++ new) = violationRowsFor key recs := by
  rw [violationRowsFor, violationRowsFor, List.filter_append]
  have hnil : List.filter
      (fun r => decide (r.camera_id = key.camera ∧ r.worker_id = key.worker ∧
        r.is_compliant = false)) new = [] := by
    rw [List.filter_eq_nil_iff]
    intro r hr
    simp [h r hr]
  rw [hnil, List.append_nil]

/-- One worker step preserves the cooldown invariant at its own time, as long
as its save attempt does not fail between the two commits. -/
theorem cooldownInv_step (cam loc : String) (t : Time) (mgr : ManagerTracking)
    (db : DB) (w : Person) (oc : SaveResult) (hoc : oc ≠ SaveResult.failBetween)
    (hInv : CooldownInv cam mgr db.detections t) :
    CooldownInv cam (processWorkerDetection cam loc t (mgr, db) (w, oc)).1
      (processWorkerDetection cam loc t (mgr, db) (w, oc)).2.detections t := by
  have hc5 : violation_cooldown_seconds = 5 := rfl
  have hp5 : violation_persistence_seconds = 5 := rfl
  rcases processWorkerDetection_shape cam loc t mgr db w oc with
    ⟨hic, heq⟩ | ⟨hic, heq⟩ | ⟨hic, hg, heq⟩ | ⟨hic, heq⟩ |
    ⟨hic, t0, hg, hdur, hcool, ⟨hoc', heq⟩ | ⟨hoc', heq⟩⟩
  · rw [heq]; exact hInv
  · rw [heq]
    intro key
    obtain ⟨hch, hlast⟩ := hInv key
    refine ⟨hch, fun r hr => ?_⟩
    obtain ⟨hts, hd⟩ := hlast r hr
    refine ⟨hts, ?_⟩
    by_cases hk : key = (⟨cam, w.worker_id⟩ : TrackKey)
    · subst hk
      rcases hd with hLeft | ⟨hNone, _⟩
      · exact Or.inl hLeft
      · refine Or.inr ⟨hNone, fun t0' ht0' => ?_⟩
        rw [dictGet_dictDel_self] at ht0'
        cases ht0'
    · have hk' : (⟨cam, w.worker_id⟩ : TrackKey) ≠ key := Ne.symm hk
      rcases hd with hLeft | ⟨hNone, hAll⟩
      · exact Or.inl hLeft
      · exact Or.inr ⟨hNone, fun t0' ht0' =>
          hAll t0' (by rwa [dictGet_dictDel_other hk'] at ht0')⟩
  · rw [heq]
    intro key
    obtain ⟨hch, hlast⟩ := hInv key
    refine ⟨hch, fun r hr => ?_⟩
    obtain ⟨hts, hd⟩ := hlast r hr
    refine ⟨hts, ?_⟩
    by_cases hk : key = (⟨cam, w.worker_id⟩ : TrackKey)
    · subst hk
      rcases hd with hLeft | ⟨hNone, _⟩
      · exact Or.inl hLeft
      · refine Or.inr ⟨hNone, fun t0' ht0' => ?_⟩
        rw [dictGet_dictSet_self] at ht0'
        have ht0'' : t = t0' := by injection ht0'
        rw [← ht0'']
        exact hts
    · have hk' : (⟨cam, w.worker_id⟩ : TrackKey) ≠ key := Ne.symm hk
      rcases hd with hLeft | ⟨hNone, hAll⟩
      · exact Or.inl hLeft
      · exact Or.inr ⟨hNone, fun t0' ht0' =>
          hAll t0' (by rwa [dictGet_dictSet_other hk'] at ht0')⟩
  · rw [heq]; exact hInv
  · rw [heq]
    intro key
    obtain ⟨hch, hlast⟩ := hInv key
    by_cases hk : key = (⟨cam, w.worker_id⟩ : TrackKey)
    · subst hk
      have hlink : ∀ rr ∈ (violationRowsFor ⟨cam, w.worker_id⟩ db.detections).getLast?,
          rr.timestamp + violation_cooldown_seconds ≤ t := by
        intro rr hrr
        obtain ⟨hts, hd⟩ := hlast rr hrr
        rcases hd with hLeft | ⟨hNone, hAll⟩
        · exact hcool rr.timestamp hLeft
        · have h1 := hAll t0 hg
          rw [hc5]
          rw [hp5] at hdur
          linarith
      have hrows : violationRowsFor ⟨cam, w.worker_id⟩
          (db.detections ++
            [violationDetectionRecord cam w (snapshotURL cam w.worker_id) t (t - t0)]) =
          violationRowsFor ⟨cam, w.worker_id⟩ db.detections ++
            [violationDetectionRecord cam w (snapshotURL cam w.worker_id) t (t - t0)] := by
        rw [violationRowsFor_append_one]
        simp [violationDetectionRecord]
      constructor
      · rw [hrows, List.chain'_append]
        refine ⟨hch, List.chain'_singleton _, fun x hx y hy => ?_⟩
        have hy' : y = violationDetectionRecord cam w (snapshotURL cam w.worker_id) t
            (t - t0) := by
          simp at hy
          exact hy.symm
        subst hy'
        exact hlink x hx
      · intro r hr
        rw [hrows, List.getLast?_concat] at hr
        have hr' : violationDetectionRecord cam w (snapshotURL cam w.worker_id) t
            (t - t0) = r := by injection hr
        subst hr'
        refine ⟨le_refl t, Or.inl ?_⟩
        rw [dictGet_dictSet_self]
        rfl
    · have hk' : (⟨cam, w.worker_id⟩ : TrackKey) ≠ key := Ne.symm hk
      have hrows : violationRowsFor key
          (db.detections ++
            [violationDetectionRecord cam w (snapshotURL cam w.worker_id) t (t - t0)]) =
          violationRowsFor key db.detections := by
        rw [violationRowsFor_append_one]
        have hno : ¬((violationDetectionRecord cam w (snapshotURL cam w.worker_id) t
            (t - t0)).camera_id = key.camera ∧
            (violationDetectionRecord cam w (snapshotURL cam w.worker_id) t
              (t - t0)).worker_id = key.worker ∧
            (violationDetectionRecord cam w (snapshotURL cam w.worker_id) t
              (t - t0)).is_compliant = false) := by
          intro hcontra
          apply hk
          obtain ⟨e1, e2, _⟩ := hcontra
          obtain ⟨kc, kw⟩ := key
          simp only [violationDetectionRecord] at e1 e2
          rw [← e1, ← e2]
        simp [hno]
      rw [hrows]
      refine ⟨(hInv key).1, fun r hr => ?_⟩
      obtain ⟨hts, hd⟩ := hlast r hr
      rcases hd with hLeft | ⟨hNone, hAll⟩
      · exact ⟨hts, Or.inl (by rw [dictGet_dictSet_other hk']; exact hLeft)⟩
      · exact ⟨hts, Or.inr ⟨by rw [dictGet_dictSet_other hk']; exact hNone, hAll⟩⟩
  · exact absurd hoc' hoc

/-- The worker fold preserves the cooldown invariant at the frame time. -/
theorem cooldownInv_fold (cam loc : String) (t : Time) :
    ∀ (l : List (Person × SaveResult)) (st : ManagerTracking × DB),
      (∀ wo ∈ l, wo.2 ≠ SaveResult.failBetween) →
      CooldownInv cam st.1 st.2.detections t →
      CooldownInv cam (l.foldl (processWorkerDetection cam loc t) st).1
        (l.foldl (processWorkerDetection cam loc t) st).2.detections t := by
  intro l
  induction l with
  | nil => intro st _ h; exact h
  | cons wo rest ih =>
    intro st hoc h
    obtain ⟨mgr, db⟩ := st
    obtain ⟨w, oc⟩ := wo
    rw [List.foldl_cons]
    exact ih _ (fun x hx => hoc x (by simp [hx]))
      (cooldownInv_step cam loc t mgr db w oc (hoc (w, oc) (by simp)) h)

/-- Deleting a whole composite key from all three dicts preserves the
cooldown invariant. -/
theorem cooldownInv_removeTrackKey (cam : String) (k : TrackKey)
    (mgr : ManagerTracking) (recs : List DetectionRecord) (t : Time)
    (h : CooldownInv cam mgr recs t) :
    CooldownInv cam (removeTrackKey k mgr) recs t := by
  intro key
  obtain ⟨hch, hlast⟩ := h key
  refine ⟨hch, fun r hr => ?_⟩
  obtain ⟨hts, hd⟩ := hlast r hr
  refine ⟨hts, ?_⟩
  by_cases hk : k = key
  · subst hk
    refine Or.inr ⟨?_, fun t0' ht0' => ?_⟩
    · exact dictGet_dictDel_self _ _
    · have e2 : dictGet k (removeTrackKey k mgr).worker_violation_start_time =
          none := dictGet_dictDel_self _ _
      rw [e2] at ht0'
      cases ht0'
  · have e1 : dictGet key (removeTrackKey k mgr).last_worker_violation_save_time =
        dictGet key mgr.last_worker_violation_save_time := dictGet_dictDel_other hk _
    have e2 : dictGet key (removeTrackKey k mgr).worker_violation_start_time =
        dictGet key mgr.worker_violation_start_time := dictGet_dictDel_other hk _
    rcases hd with hLeft | ⟨hNone, hAll⟩
    · exact Or.inl (by rw [e1]; exact hLeft)
    · exact Or.inr ⟨by rw [e1]; exact hNone,
        fun t0' ht0' => hAll t0' (by rwa [e2] at ht0')⟩

theorem cooldownInv_foldl_remove (cam : String) (recs : List DetectionRecord)
    (t : Time) :
    ∀ (ids : List Nat) (mgr : ManagerTracking),
      CooldownInv cam mgr recs t →
      CooldownInv cam (ids.foldl (fun m wid => removeTrackKey ⟨cam, wid⟩ m) mgr) recs t := by
  intro ids
  induction ids with
  | nil => intro mgr h; exact h
  | cons x rest ih =>
    intro mgr h
    rw [List.foldl_cons]
    exact ih _ (cooldownInv_removeTrackKey cam ⟨cam, x⟩ mgr recs t h)

/-- The stale-worker sweep preserves the cooldown invariant. -/
theorem cooldownInv_frameCleanup (cam : String) (st : StreamState) (f : Frame)
    (t : Time) (h : CooldownInv cam st.mgr st.db.detections t) :
    CooldownInv cam (frameCleanup cam st f).1 st.db.detections t := by
  rw [frameCleanup]
  by_cases h150 : st.frame_count % 150 = 0
  · rw [if_pos h150]
    exact cooldownInv_foldl_remove cam st.db.detections t _ st.mgr h
  · rw [if_neg h150]
    exact h

/-- Appending compliance rows changes no key's violation rows, so the global
compliance snapshot preserves the cooldown invariant. -/
theorem cooldownInv_compliance_fold (cam : String) (t' : Time)
    (l : List (Person × SaveResult)) (mgr : ManagerTracking) (db : DB) (t : Time)
    (h : CooldownInv cam mgr db.detections t) :
    CooldownInv cam mgr (l.foldl (complianceSaveStep cam t') db).detections t := by
  obtain ⟨new, hnew, hp⟩ := foldl_compliance_db_new cam t' l db
  rw [hnew]
  intro key
  obtain ⟨hch, hlast⟩ := h key
  have hrows := violationRowsFor_append_true key db.detections new
    (fun r hr => by obtain ⟨wo, hwo, e1, e2, e3, _⟩ := hp r hr; exact e3)
  rw [hrows]
  exact ⟨hch, hlast⟩

/-- One loop iteration preserves the cooldown invariant, advancing its time
bound to the frame's time. -/
theorem cooldownInv_frame (cam loc : String) (st : StreamState) (f : Frame)
    (hoc : ∀ wo ∈ f.workers, wo.2 ≠ SaveResult.failBetween)
    (tPrev : Time) (hle : tPrev ≤ f.time)
    (hInv : CooldownInv cam st.mgr st.db.detections tPrev) :
    CooldownInv cam (processFrame cam loc true st f).mgr
      (processFrame cam loc true st f).db.detections f.time := by
  have h1 := cooldownInv_mono cam st.mgr st.db.detections tPrev f.time hle hInv
  have h2 := cooldownInv_frameCleanup cam st f f.time h1
  have h3 := cooldownInv_fold cam loc f.time f.workers
    ((frameCleanup cam st f).1, st.db) hoc h2
  rw [processFrame_mgr, processFrame_db]
  split
  · exact cooldownInv_compliance_fold cam f.time f.workers _ _ f.time h3
  · exact h3

/-- The loop maintains the cooldown invariant over any history with
non-decreasing frame times and without mid-save failures. -/
theorem cooldownInv_run (cam loc : String) :
    ∀ (ins : List FrameIn) (st : StreamState) (tPrev : Time),
      List.Chain' (fun a b => a ≤ b) (tPrev :: frameTimes ins) →
      (∀ f ∈ framesOf ins, ∀ wo ∈ f.workers, wo.2 ≠ SaveResult.failBetween) →
      CooldownInv cam st.mgr st.db.detections tPrev →
      ∃ tEnd, CooldownInv cam (runFrames cam loc true st ins).1.mgr
        (runFrames cam loc true st ins).1.db.detections tEnd := by
  intro ins
  induction ins with
  | nil => intro st tPrev _ _ h; exact ⟨tPrev, h⟩
  | cons i rest ih =>
    intro st tPrev hchain hoc h
    cases i with
    | detectRaise => exact ⟨tPrev, h⟩
    | nextFrame f =>
      have hft : frameTimes (FrameIn.nextFrame f :: rest) = f.time :: frameTimes rest :=
        rfl
      rw [hft] at hchain
      have hchain' := List.chain'_cons.mp hchain
      have hframes : framesOf (FrameIn.nextFrame f :: rest) = f :: framesOf rest := rfl
      rw [hframes] at hoc
      have hfr := cooldownInv_frame cam loc st f (hoc f (by simp)) tPrev hchain'.1 h
      have hrec := ih (processFrame cam loc true st f) f.time hchain'.2
        (fun g hg => hoc g (by simp [hg])) hfr
      simpa [runFrames] using hrec

/-- Every row the loop persists that carries a violation duration passed the
persistence window. -/
theorem durations_run (cam loc : String) :
    ∀ (ins : List FrameIn) (st : StreamState),
      (∀ r ∈ st.db.detections, ∀ d, r.violation_duration = some d →
        violation_persistence_seconds ≤ d) →
      ∀ r ∈ (runFrames cam loc true st ins).1.db.detections, ∀ d,
        r.violation_duration = some d → violation_persistence_seconds ≤ d := by
  intro ins
  induction ins with
  | nil => intro st h; exact h
  | cons i rest ih =>
    intro st h
    cases i with
    | detectRaise => exact h
    | nextFrame f =>
      have hstep : ∀ r ∈ (processFrame cam loc true st f).db.detections, ∀ d,
          r.violation_duration = some d → violation_persistence_seconds ≤ d := by
        obtain ⟨new, hnew, hp⟩ := processFrame_db_rows cam loc st f
        rw [hnew]
        intro r hr d hd
        rcases List.mem_append.mp hr with h1 | h2
        · exact h r h1 d hd
        · obtain ⟨wo, hwo, e1, e2, e3, e4, e5, e6⟩ := hp r h2
          cases hb : r.is_compliant
          · obtain ⟨_, d', hd', hge⟩ := e5 hb
            rw [hd'] at hd
            have hdd : d' = d := by injection hd
            rw [← hdd]
            exact hge
          · obtain ⟨_, hnone⟩ := e6 hb
            rw [hnone] at hd
            cases hd
      simpa [runFrames] using ih (processFrame cam loc true st f) hstep

/-- C1 counterexample: on the reachable history `cooldownCexInput` — a save
whose second commit fails at `t = 5` (persisting the detection but skipping
the save-time update), then a successful save at `t = 6` — the persisted
violation rows of `("cam1", 1)` are 1 second apart, violating the claimed
cooldown separation. -/
theorem violation_cooldown_cex :
    ((violationRowsFor ⟨"cam1", 1⟩
        (processCameraStream "cam1" "Site A" true initialStreamState
          cooldownCexInput).1.db.detections).map (fun r => r.timestamp)) = [5, 6] ∧
      ¬ ((5 : ℚ) + violation_cooldown_seconds ≤ 6) := by
  with_unfolding_all decide

/-- C1 amended: over any history with non-decreasing frame times in which no
save fails between its two commits, consecutive violation rows persisted for
any `(camera, worker)` pair are at least `violation_cooldown` (5 s) apart;
and unconditionally, every persisted violation row carries a violation
duration — the elapsed time since its recorded start — of at least
`violation_persistence` (5 s). -/
theorem violation_records_cooldown_and_persistence :
    ∀ (cam loc : String) (mgr0 : ManagerTracking) (seen0 : List (Nat × Time))
      (fc0 : Nat) (snap0 : Time) (ins : List FrameIn),
      (List.Chain' (fun a b => a ≤ b) (frameTimes ins) →
        NoMidSaveFailure ins →
        ∀ key : TrackKey,
          List.Chain' (fun r s => r.timestamp + violation_cooldown_seconds ≤ s.timestamp)
            (violationRowsFor key
              (processCameraStream cam loc true
                  ⟨mgr0, ⟨[], []⟩, seen0, fc0, snap0⟩ ins).1.db.detections)) ∧
        ∀ r ∈ (processCameraStream cam loc true
              ⟨mgr0, ⟨[], []⟩, seen0, fc0, snap0⟩ ins).1.db.detections,
          ∀ d, r.violation_duration = some d → violation_persistence_seconds ≤ d := by
  intro cam loc mgr0 seen0 fc0 snap0 ins
  constructor
  · intro hchain hnofail
    have hInv0 : CooldownInv cam
        (⟨mgr0, ⟨[], []⟩, seen0, fc0, snap0⟩ : StreamState).mgr
        (⟨mgr0, ⟨[], []⟩, seen0, fc0, snap0⟩ : StreamState).db.detections
        ((frameTimes ins).headD 0) := by
      intro key
      constructor
      · show List.Chain' _ (violationRowsFor key [])
        simp [violationRowsFor]
      · intro r hr
        simp [violationRowsFor] at hr
    have hchain0 : List.Chain' (fun a b => a ≤ b)
        ((frameTimes ins).headD 0 :: frameTimes ins) := by
      cases hft : frameTimes ins with
      | nil => simp
      | cons a l =>
        rw [List.headD_cons]
        exact List.chain'_cons.mpr ⟨le_refl a, hft ▸ hchain⟩
    obtain ⟨tEnd, hfinal⟩ := cooldownInv_run cam loc ins
      ⟨mgr0, ⟨[], []⟩, seen0, fc0, snap0⟩ ((frameTimes ins).headD 0) hchain0 hnofail hInv0
    intro key
    exact (hfinal key).1
  · refine durations_run cam loc ins ⟨mgr0, ⟨[], []⟩, seen0, fc0, snap0⟩ ?_
    intro r hr
    exact absurd hr (List.not_mem_nil r)

/-- C1 witness: the amended statement on the all-saves-succeed history with
frames at `t = 0, 5, 10`. -/
theorem violation_records_cooldown_and_persistence_witness :
    (∀ key : TrackKey,
        List.Chain' (fun r s => r.timestamp + violation_cooldown_seconds ≤ s.timestamp)
          (violationRowsFor key
            (processCameraStream "cam1" "Site A" true
                ⟨⟨[], [], []⟩, ⟨[], []⟩, [], 0, 0⟩ cooldownWitnessInput).1.db.detections)) ∧
      ∀ r ∈ (processCameraStream "cam1" "Site A" true
            ⟨⟨[], [], []⟩, ⟨[], []⟩, [], 0, 0⟩ cooldownWitnessInput).1.db.detections,
        ∀ d, r.violation_duration = some d → violation_persistence_seconds ≤ d :=
  ⟨(violation_records_cooldown_and_persistence "cam1" "Site A" ⟨[], [], []⟩ [] 0 0
        cooldownWitnessInput).1
      (by rw [show frameTimes cooldownWitnessInput = [0, 5, 10] from rfl,
            List.chain'_cons, List.chain'_cons]
          exact ⟨by decide, by decide, List.chain'_singleton _⟩)
      (show ∀ f ∈ framesOf cooldownWitnessInput, ∀ wo ∈ f.workers,
          wo.2 ≠ SaveResult.failBetween by decide),
    (violation_records_cooldown_and_persistence "cam1" "Site A" ⟨[], [], []⟩ [] 0 0
        cooldownWitnessInput).2⟩

end PPE
